import Mathlib

set_option maxHeartbeats 2000000
set_option maxRecDepth 8192

/-!
Verification development for the cluster core of the `insulator2` Kafka
inspection tool (Rust sources under `src/src-tauri/src`).

Rust strings are modelled as `String` (for values that are only carried
around) or `List Char` (for values that are scanned and rewritten, as in
`record_store/app_store.rs`).  Machine integers are modelled as `Int` or
`Nat` with explicit range arithmetic where overflow or truncation matters.
Fallible Rust code returns `Except`; a Rust `panic!` / `expect` / `unwrap`
abort is modelled as the distinguished error channel `Failure.panicked`,
kept apart from `Err(..)` values, which appear as `Failure.raised`.
Unbounded recursion (the Avro projection can recurse through `Schema::Ref`)
is made total with an explicit `fuel` argument; exhausting fuel corresponds
to the Rust stack overflow abort and is also reported as a panic.
-/

namespace Insulator

/-- Error kind of `lib::error::Error`.  Modelled from the spec §7 (the file
`lib/error.rs` itself is not under `src/`): `AvroParse`, `SqlError`, `Kafka`
and the other kinds carry a message. -/
inductive RustError where
  | avroParse (message : String)
  | sqlError (message : String)
  | kafka (message : String)
  | configuration (message : String)
deriving DecidableEq, Repr

/-- Outcome channel of a Rust call: either a returned `Err` value (`raised`)
or a process abort through `panic!` / `expect` / `unwrap` / `assert`
(`panicked`).  The distinction is the subject of claim C2. -/
inductive Failure where
  | raised (e : RustError)
  | panicked (message : String)
deriving DecidableEq, Repr

/-- `SchemaRegistryError` of `lib/schema_registry` as used by
`lib/schema_registry/http_client.rs` (`HttpClient { message }`). -/
inductive SchemaRegistryError where
  | httpClient (message : String)
  | urlError
deriving DecidableEq, Repr

/-! ## Avro data model (`apache_avro` crate as used by `lib/parser/avro_parser.rs`)

Schema names (`apache_avro::schema::Name`) are modelled as plain strings.
`Record` keeps the `fields` list (field name and schema) and the
`lookup` table (field name to index), as in the crate.  `Decimal` keeps
`precision`, `scale` and the (unused by `map`) `inner` schema. -/

inductive AvroSchema where
  | null
  | boolean
  | int
  | long
  | float
  | double
  | bytes
  | string
  | arrayS (items : AvroSchema)
  | mapS (values : AvroSchema)
  | unionS (variants : List AvroSchema)
  | recordS (name : String) (fields : List (String × AvroSchema)) (lookup : List (String × Nat))
  | enumS (name : String) (symbols : List String)
  | fixedS (name : String) (size : Nat)
  | decimalS (precision : Nat) (scale : Nat) (inner : AvroSchema)
  | uuid
  | date
  | timeMillis
  | timeMicros
  | timestampMillis
  | timestampMicros
  | duration
  | ref (name : String)

/-- `apache_avro::types::Value`.  Floating payloads are carried as raw bit
patterns (the projection only passes them through, it never computes with
them); `Decimal` is carried as its signed big-endian byte representation,
which is what `map` converts through `BigInt::from_signed_bytes_be`. -/
inductive AvroValue where
  | null
  | boolean (v : Bool)
  | int (v : Int)
  | long (v : Int)
  | float (bits : Nat)
  | double (bits : Nat)
  | bytes (v : List Nat)
  | string (v : String)
  | fixedV (size : Nat) (v : List Nat)
  | enumV (i : Nat) (symbol : String)
  | union (i : Nat) (v : AvroValue)
  | array (items : List AvroValue)
  | mapV (entries : List (String × AvroValue))
  | record (fields : List (String × AvroValue))
  | date (v : Int)
  | decimalV (bytes : List Nat)
  | timeMillis (v : Int)
  | timeMicros (v : Int)
  | timestampMillis (v : Int)
  | timestampMicros (v : Int)
  | duration (months : Nat) (days : Nat) (millis : Nat)
  | uuid (v : String)

/-- Numeric JSON payloads produced by the projection (`serde_json` numbers;
floats kept as bit patterns, decimals as mantissa and scale). -/
inductive JsonNum where
  | int (v : Int)
  | f32 (bits : Nat)
  | f64 (bits : Nat)
  | dec (mantissa : Int) (scale : Nat)

/-- `serde_json::Value`.  Objects are ordered key/value lists kept sorted by
key, mirroring the `BTreeMap` behind `serde_json::Map`. -/
inductive Json where
  | null
  | bool (b : Bool)
  | num (n : JsonNum)
  | str (s : String)
  | arr (elems : List Json)
  | obj (fields : List (String × Json))

/-- Insert into a `serde_json::Map` model: keep keys sorted, replace on an
equal key (`BTreeMap::insert`). -/
def objInsert (k : String) (j : Json) : List (String × Json) → List (String × Json)
  | [] => [(k, j)]
  | (k0, j0) :: rest =>
    if k < k0 then (k, j) :: (k0, j0) :: rest
    else if k = k0 then (k, j) :: rest
    else (k0, j0) :: objInsert k j rest

/-- The mutable `ref_cache : HashMap<&Name, &Schema>` threaded through
`map`.  Modelled as an association list where insertion prepends, so a
later insertion of the same name shadows the earlier one exactly as a
`HashMap` overwrite does for lookups. -/
abbrev RefCache : Type := List (String × AvroSchema)

/-- `ref_cache.insert(name, schema)`. -/
def RefCache.insert (name : String) (s : AvroSchema) (c : RefCache) : RefCache :=
  (name, s) :: c

/-- `ref_cache.get(name)`. -/
def RefCache.get (name : String) (c : RefCache) : Option AvroSchema :=
  List.lookup name c

/-- The pre-seeding loop of the `(Union(i, v), Union(s))` arm of `map`
(`avro_parser.rs:145-149`): for every variant of the union, insert it into
the ref cache if and only if it is a `Schema::Record`.  `Enum` and `Fixed`
variants are NOT inserted by this loop. -/
def seedUnionRecords (variants : List AvroSchema) (c : RefCache) : RefCache :=
  variants.foldl
    (fun acc s =>
      match s with
      | .recordS n fs lk => RefCache.insert n (.recordS n fs lk) acc
      | _ => acc)
    c

/-- `BigInt::from_signed_bytes_be`: interpret a byte list as a big-endian
two-complement signed integer (empty list is 0). -/
def fromSignedBytesBE (bs : List Nat) : Int :=
  match bs with
  | [] => 0
  | b0 :: _ =>
    let n : Nat := bs.foldl (fun a b => a * 256 + b % 256) 0
    if b0 % 256 < 128 then (n : Int) else (n : Int) - (256 : Int) ^ bs.length

/-- `fn map(value, schema, ref_cache)` of `lib/parser/avro_parser.rs`.

The function returns the produced `serde_json::Value` together with the
updated ref cache (the Rust function mutates the cache through `&mut`).
`fuel` bounds the recursion depth; every recursive `map` call spends one
unit, and running out is the stack-overflow abort.  The match arms appear
in source order. -/
def mapAvro : Nat → AvroValue → AvroSchema → RefCache → Except Failure (Json × RefCache)
  | 0, _, _, _ => .error (.panicked "stack overflow")
  | Nat.succ fuel, value, schema, cache =>
    match value, schema with
    | .null, .null => .ok (.null, cache)
    | .boolean v, .boolean => .ok (.bool v, cache)
    | .int v, .int => .ok (.num (.int v), cache)
    | .long v, .long => .ok (.num (.int v), cache)
    | .float v, .float => .ok (.num (.f32 v), cache)
    | .double v, .double => .ok (.num (.f64 v), cache)
    | .string v, .string => .ok (.str v, cache)
    | .array items, .arrayS s =>
      (items.foldl
        (fun (acc : Except Failure (List Json × RefCache)) (v : AvroValue) => do
          let (js, c0) ← acc
          let (j, c1) ← mapAvro fuel v s c0
          Except.ok (js ++ [j], c1))
        (.ok ([], cache))).map (fun r => (.arr r.1, r.2))
    | .mapV entries, .mapS s =>
      (entries.foldl
        (fun (acc : Except Failure (List (String × Json) × RefCache)) (kv : String × AvroValue) => do
          let (fields, c0) ← acc
          let (j, c1) ← mapAvro fuel kv.2 s c0
          Except.ok (objInsert kv.1 j fields, c1))
        (.ok ([], cache))).map (fun r => (.obj r.1, r.2))
    | .record vfields, .recordS name sfields lookup =>
      let cache1 := RefCache.insert name (.recordS name sfields lookup) cache
      (vfields.foldl
        (fun (acc : Except Failure (List (String × Json) × RefCache)) (kv : String × AvroValue) => do
          let (fields, c0) ← acc
          match List.lookup kv.1 lookup with
          | none => Except.error (.panicked ("Missing field " ++ kv.1))
          | some fieldIndex =>
            match sfields.get? fieldIndex with
            | none => Except.error (.panicked "called Option::unwrap on a None value")
            | some fs => do
              let (j, c1) ← mapAvro fuel kv.2 fs.2 c0
              Except.ok (objInsert kv.1 j fields, c1))
        (.ok ([], cache1))).map (fun r => (.obj r.1, r.2))
    | .date v, .date => .ok (.num (.int v), cache)
    | .timeMillis v, .timeMillis => .ok (.num (.int v), cache)
    | .timeMicros v, .timeMicros => .ok (.num (.int v), cache)
    | .timestampMillis v, .timestampMillis => .ok (.num (.int v), cache)
    | .timestampMicros v, .timestampMicros => .ok (.num (.int v), cache)
    | .uuid v, .uuid => .ok (.str v, cache)
    | .bytes v, .bytes => .ok (.arr (v.map (fun b => .num (.int b))), cache)
    | .decimalV v, .decimalS _ scale _ =>
      let value := fromSignedBytesBE v
      if value < -9223372036854775808 ∨ 9223372036854775807 < value then
        .error (.panicked "Unable to cast to i64")
      else
        .ok (.num (.dec value scale), cache)
    | .duration months days millis, .duration =>
      .ok (.str (toString months ++ " months " ++ toString days ++ " days " ++
                 toString millis ++ " millis"), cache)
    | .union i v, .unionS variants =>
      match variants.get? i with
      | none => .error (.panicked "Missing schema in the union")
      | some s => mapAvro fuel v s (seedUnionRecords variants cache)
    | .enumV _ v, .enumS name symbols =>
      .ok (.str v, RefCache.insert name (.enumS name symbols) cache)
    | .fixedV _size v, .fixedS name fsize =>
      .ok (.arr (v.map (fun b => .num (.int b))), RefCache.insert name (.fixedS name fsize) cache)
    | value, .ref name =>
      match RefCache.get name cache with
      | none => .error (.panicked ("Missing Avro schema reference " ++ name))
      | some s => mapAvro fuel value s cache
    | _, _ => .error (.panicked "Unexpected value/schema tuple")

/-- A (value, schema) pair matches one of the explicit projection rules of
`map` (the arms before the final `(_, s) => panic!` catch-all).  The arms
are listed in source order; like in the source, any value paired with a
`Ref` schema matches the `Ref` rule.  Pairs for which this is `false` fall
through to the catch-all. -/
def matchesRule : AvroValue → AvroSchema → Bool
  | .null, .null => true
  | .boolean _, .boolean => true
  | .int _, .int => true
  | .long _, .long => true
  | .float _, .float => true
  | .double _, .double => true
  | .string _, .string => true
  | .array _, .arrayS _ => true
  | .mapV _, .mapS _ => true
  | .record _, .recordS _ _ _ => true
  | .date _, .date => true
  | .timeMillis _, .timeMillis => true
  | .timeMicros _, .timeMicros => true
  | .timestampMillis _, .timestampMillis => true
  | .timestampMicros _, .timestampMicros => true
  | .uuid _, .uuid => true
  | .bytes _, .bytes => true
  | .decimalV _, .decimalS _ _ _ => true
  | .duration _ _ _, .duration => true
  | .union _ _, .unionS _ => true
  | .enumV _ _, .enumS _ _ => true
  | .fixedV _ _, .fixedS _ _ => true
  | _, .ref _ => true
  | _, _ => false

/-- Discriminator used by claims C1 and C2: whether an outcome is the
`Error::AvroParse { .. }` return value. -/
def isAvroParseError {α : Type} : Except Failure α → Bool
  | .error (.raised (.avroParse _)) => true
  | _ => false

/-! ## Schema-id extraction (`get_schema_id`, `i32::from_be_bytes`) -/

/-- `i32::from_be_bytes([b1, b2, b3, b4])`: big-endian bytes to a signed
32-bit integer (two-complement reinterpretation made explicit). -/
def i32FromBeBytes (b1 b2 b3 b4 : Nat) : Int :=
  let n : Nat := (b1 % 256) * 16777216 + (b2 % 256) * 65536 + (b3 % 256) * 256 + b4 % 256
  if n < 2147483648 then (n : Int) else (n : Int) - 4294967296

/-- `fn get_schema_id(raw)` of `lib/parser/avro_parser.rs`: take the slice
`raw[1..5]` (slicing panics when `raw` is shorter than 5 bytes) and convert
it with `i32::from_be_bytes`.  The `try_from` to `[u8; 4]` cannot fail on a
4-byte slice, so its `AvroParse` branch is unreachable and does not appear. -/
def getSchemaId (raw : List Nat) : Except Failure Int :=
  if raw.length < 5 then .error (.panicked "range end index out of range for slice")
  else .ok (i32FromBeBytes (raw.getD 1 0) (raw.getD 2 0) (raw.getD 3 0) (raw.getD 4 0))

/-- Specification-side reading of claim C8: fold the extracted byte list as
one big-endian number and reinterpret it as a signed 32-bit integer. -/
def specBigEndianI32 (bs : List Nat) : Int :=
  let n : Nat := bs.foldl (fun a b => a * 256 + b % 256) 0
  if n < 2147483648 then (n : Int) else (n : Int) - 4294967296

/-! ## `AvroParser::parse_payload` (`lib/parser/avro_parser.rs`) -/

/-- External collaborators of `parse_payload`, bundled as an oracle: the
schema registry client (`get_schema_by_id`), the `apache_avro` binary
decoder (`from_avro_datum`) and the `serde_json` serializer
(`to_string`).  All three live outside this repository; the pipeline under
verification is `parse_payload` itself. -/
structure AvroParserOracle where
  getSchemaById : Int → Except String AvroSchema
  fromAvroDatum : AvroSchema → List Nat → Except String AvroValue
  toJsonString : Json → Except String String

/-- `AvroParser::parse_payload(raw)`: the framing gate, schema-id
extraction, registry fetch, datum decode, JSON projection (`map` with a
fresh ref cache) and serialization, each failure mapped to
`Error::AvroParse` exactly as in the source. -/
def parsePayload (fuel : Nat) (o : AvroParserOracle) (raw : List Nat) : Except Failure String :=
  if raw.length ≤ 5 ∨ raw.getD 0 0 ≠ 0 then
    .error (.raised (.avroParse
      "Supported avro messages should start with 0x00 follow by the schema id (4 bytes)"))
  else
    match getSchemaId raw with
    | .error e => .error e
    | .ok id =>
      match o.getSchemaById id with
      | .error err =>
        .error (.raised (.avroParse
          ("Unable to retrieve the schema from schema registry\n" ++ err)))
      | .ok schema =>
        match o.fromAvroDatum schema (raw.drop 5) with
        | .error err =>
          .error (.raised (.avroParse ("Unable to parse the avro record\n" ++ err)))
        | .ok record =>
          match mapAvro fuel record schema [] with
          | .error e => .error e
          | .ok (json, _) =>
            match o.toJsonString json with
            | .error err =>
              .error (.raised (.avroParse ("Unable to map the avro record to json\n" ++ err)))
            | .ok res => .ok res

/-- `TauriError` of the older duplicate parser
(`src/kafka/consumer/avro_parser.rs`). -/
structure TauriError where
  error_type : String
  message : String
deriving DecidableEq, Repr

/-- Decode tail of the older `kafka/consumer/avro_parser.rs::parse_avro`
past the framing gate and schema-id extraction: registry fetch of the raw
schema string, `Schema::parse_str`, `from_avro_datum`, that file's own
`map` and `serde_json::to_string`, bundled as one oracle taking the schema
id and the datum bytes. -/
structure KafkaAvroOracle where
  decodeTail : Int → List Nat → Except TauriError String

/-- `parse_avro(raw, config)` of `kafka/consumer/avro_parser.rs`: the same
framing gate as `parse_payload` (its failure is a `TauriError`, not an
`AvroParse` variant), then big-endian schema-id extraction (the gate
guarantees the 4-byte slice exists) and the oracle decode tail. -/
def parseAvroKafka (o : KafkaAvroOracle) (raw : List Nat) : Except TauriError String :=
  if raw.length ≤ 5 ∨ raw.getD 0 0 ≠ 0 then
    .error ⟨"Invalid AVRO byte array received",
      "Supported avro messages should start with 0x00 follow by the schema id (4 bytes)"⟩
  else
    o.decodeTail (i32FromBeBytes (raw.getD 1 0) (raw.getD 2 0) (raw.getD 3 0) (raw.getD 4 0))
      (raw.drop 5)

/-! ## Record store (`lib/record_store/app_store.rs`)

Strings that `parse_query` rewrites are modelled as `List Char`. -/

/-- Fuel-driven scanner implementing `str::replace` (leftmost,
non-overlapping).  The fuel only makes the recursion structural; with
`fuel = s.length` (see `replaceL`) it never runs out for a non-empty
pattern, which `replaceGo_eq_replaceW` proves. -/
def replaceGo (pat rep : List Char) : Nat → List Char → List Char
  | _, [] => []
  | 0, s => s
  | Nat.succ fuel, c :: rest =>
    if pat.isPrefixOf (c :: rest) then
      rep ++ replaceGo pat rep fuel ((c :: rest).drop pat.length)
    else c :: replaceGo pat rep fuel rest

/-- `s.replace(pat, rep)` for Rust strings as char lists. -/
def replaceL (s pat rep : List Char) : List Char := replaceGo pat rep s.length s

/-- Recursion-on-the-string formulation of the same scanner, convenient for
symbolic reasoning; `replaceGo_eq_replaceW` identifies the two for
non-empty patterns. -/
def replaceW : List Char → List Char → List Char → List Char
  | [], _, _ => []
  | c :: rest, pat, rep =>
    if h : pat.isPrefixOf (c :: rest) ∧ pat ≠ [] then
      rep ++ replaceW ((c :: rest).drop pat.length) pat rep
    else c :: replaceW rest pat rep
termination_by s _ _ => s.length
decreasing_by
  · have hp : 1 ≤ pat.length := by
      cases hpat : pat
      · exact absurd hpat h.2
      · simp
    simp only [List.length_drop, List.length_cons]
    omega
  · simp only [List.length_cons]
    omega

/-- Decimal digits, lowest first position. -/
def digitChars : List Char := "0123456789".toList

/-- Digit-accumulating loop of the decimal rendering; fuel `n + 1` always
suffices. -/
def natToCharsGo : Nat → Nat → List Char → List Char
  | 0, _, acc => acc
  | Nat.succ fuel, n, acc =>
    let d : Char := digitChars.getD (n % 10) (Char.ofNat 48)
    if n < 10 then d :: acc else natToCharsGo fuel (n / 10) (d :: acc)

/-- Decimal rendering of a natural number (`u64::to_string`). -/
def natToChars (n : Nat) : List Char := natToCharsGo (n + 1) n []

/-- Decimal rendering of an `i64` (`i64::to_string`): optional minus sign
followed by the digits of the absolute value. -/
def intToChars (i : Int) : List Char :=
  if i < 0 then '-' :: natToChars i.natAbs else natToChars i.natAbs

/-- Whitespace predicate behind `str::trim`, restricted to the ASCII
whitespace relevant here. -/
def isWsChar (c : Char) : Bool := c.isWhitespace

/-- `str::trim`: drop whitespace from both ends. -/
def trimL (s : List Char) : List Char :=
  ((s.dropWhile isWsChar).reverse.dropWhile isWsChar).reverse

/-- `Query` of `lib/record_store/app_store.rs`. -/
structure Query where
  cluster_id : List Char
  topic_name : List Char
  offset : Int
  limit : Int
  query_template : List Char

/-- The single-quote character, written by code point to keep source text
free of quote literals. -/
def sq : Char := Char.ofNat 39

/-- `AppStore::get_table_name(cluster_id, topic_name)`:
the quoted identifier made of a single quote, bracketed cluster id, a dot,
bracketed topic name and a closing single quote. -/
def tableName (cluster_id topic_name : List Char) : List Char :=
  [sq] ++ "[".toList ++ cluster_id ++ "].[".toList ++ topic_name ++ "]".toList ++ [sq]

/-- The literal placeholder `{:topic}`. -/
def topicPlaceholder : List Char := "\x7b:topic\x7d".toList

/-- The literal placeholder `{:limit}`. -/
def limitPlaceholder : List Char := "\x7b:limit\x7d".toList

/-- The literal placeholder `{:offset}`. -/
def offsetPlaceholder : List Char := "\x7b:offset\x7d".toList

/-- The `if query.ends_with(';')` tail of `parse_query`: drop one trailing
semicolon when the (trimmed) query ends with one. -/
def stripTrailingSemicolon (t : List Char) : List Char :=
  if t.getLast? = some ';' then t.dropLast else t

/-- `AppStore::parse_query(query)`: three literal `str::replace` passes
(topic, then limit, then offset), a `trim`, and removal of one trailing
semicolon when present. -/
def parse_query (q : Query) : List Char :=
  stripTrailingSemicolon (trimL
    (replaceL
      (replaceL
        (replaceL q.query_template topicPlaceholder (tableName q.cluster_id q.topic_name))
        limitPlaceholder (intToChars q.limit))
      offsetPlaceholder (intToChars q.offset)))

/-- The query template of claim C3:
`SELECT * FROM {:topic} LIMIT {:limit} OFFSET {:offset};`. -/
def c3Template : List Char :=
  "SELECT * FROM \x7b:topic\x7d LIMIT \x7b:limit\x7d OFFSET \x7b:offset\x7d;".toList

/-- The substituted prefix of the C3 template up to the limit value. -/
def c3A1 : List Char :=
  "SELECT * FROM ".toList ++ tableName "c".toList "t".toList ++ " LIMIT ".toList

/-- The literal between the substituted limit and offset values. -/
def c3Off : List Char := " OFFSET ".toList

/-- `ParsedKafkaRecord` (spec §3; `lib/types.rs` is not under `src/`, the
field set is used by `app_store.rs` and fixed by the spec data model). -/
structure ParsedKafkaRecord where
  topic : List Char
  partition : Int
  offset : Int
  timestamp : Option Int
  key : Option String
  payload : Option String
deriving DecidableEq, Repr

/-- One row of a topic table: the five stored columns
`partition, offset, timestamp, key, payload`. -/
structure RecordRow where
  partition : Int
  offset : Int
  timestamp : Option Int
  key : Option String
  payload : Option String
deriving DecidableEq, Repr

/-- The in-memory SQLite database: tables keyed by their (quoted) name.
SQLite itself enforces that table names are unique. -/
abbrev Store := List (List Char × List RecordRow)

/-- `AppStore::create_topic_table(cluster_id, topic_name)`:
`CREATE TABLE <name> (...)`.  When a table with that name already exists
the statement fails and the surrounding `unwrap_or_else` panics; otherwise
an empty table is added. -/
def createTopicTable (store : Store) (cluster_id topic_name : List Char) :
    Except Failure Store :=
  match List.lookup (tableName cluster_id topic_name) store with
  | some _ =>
    .error (.panicked (String.mk ("Unable to create the table for ".toList ++
      cluster_id ++ " ".toList ++ topic_name)))
  | none => .ok ((tableName cluster_id topic_name, []) :: store)

/-- Replace the row list of the table `key`. -/
def updateTable (key : List Char) (rows : List RecordRow) : Store → Store
  | [] => []
  | (k, v) :: rest =>
    if key == k then (k, rows) :: rest else (k, v) :: updateTable key rows rest

/-- `AppStore::insert_record(cluster_id, topic_name, record)`: append one
row; a missing table surfaces the SQL error through `?`. -/
def insertRecord (store : Store) (cluster_id topic_name : List Char)
    (r : RecordRow) : Except Failure Store :=
  match List.lookup (tableName cluster_id topic_name) store with
  | none => .error (.raised (.sqlError "no such table"))
  | some rows => .ok (updateTable (tableName cluster_id topic_name) (rows ++ [r]) store)

/-- Ordering used by `ORDER BY timestamp desc`: larger timestamps first,
SQL `NULL` timestamps last (SQLite sorts `NULL` first ascending, hence last
descending). -/
def tsDescLe (a b : Option Int) : Bool :=
  match a, b with
  | some x, some y => y ≤ x
  | some _, none => true
  | none, some _ => false
  | none, none => true

/-- Insertion step of the `ORDER BY timestamp desc` sort. -/
def insertTsDesc (r : RecordRow) : List RecordRow → List RecordRow
  | [] => [r]
  | x :: xs => if tsDescLe r.timestamp x.timestamp then r :: x :: xs else x :: insertTsDesc r xs

/-- `ORDER BY timestamp desc` as an insertion sort. -/
def sortTsDesc (rows : List RecordRow) : List RecordRow := rows.foldr insertTsDesc []

/-- Modelled from the spec: the embedded SQL engine (`rusqlite`) is outside
this repository; §4.4 fixes `get_records` to be equivalent to
`SELECT ... FROM <table> ORDER BY timestamp DESC LIMIT :limit OFFSET :offset`.
SQLite treats a negative `OFFSET` as 0 (`Int.toNat`) and a negative `LIMIT`
as no limit. -/
def runPagedSelect (rows : List RecordRow) (limit offset : Int) : List RecordRow :=
  ((sortTsDesc rows).drop offset.toNat).take
    (if limit < 0 then (sortTsDesc rows).length else limit.toNat)

/-- The `query_template` that `AppStore::get_records` passes to
`query_records`. -/
def getRecordsTemplate : List Char :=
  ("SELECT partition, offset, timestamp, key, payload FROM \x7b:topic\x7d " ++
   "ORDER BY timestamp desc LIMIT \x7b:limit\x7d OFFSET \x7b:offset\x7d").toList

/-- The `Query` value built by `AppStore::get_records`. -/
def getRecordsQuery (cluster_id topic_name : List Char) (offset limit : Int) : Query :=
  ⟨cluster_id, topic_name, offset, limit, getRecordsTemplate⟩

/-- `AppStore::get_records(cluster_id, topic_name, offset, limit)`:
delegates to `query_records` with `getRecordsTemplate`; the SQL engine
evaluation of the resulting statement is `runPagedSelect` (see there), and
each row is returned with `topic` taken from the query's `topic_name`. -/
def getRecords (store : Store) (cluster_id topic_name : List Char)
    (offset limit : Int) : Except Failure (List ParsedKafkaRecord) :=
  match List.lookup (tableName cluster_id topic_name) store with
  | none => .error (.raised (.sqlError "no such table"))
  | some rows =>
    .ok ((runPagedSelect rows limit offset).map
      (fun r => ⟨topic_name, r.partition, r.offset, r.timestamp, r.key, r.payload⟩))

/-! ## `query_records` row mapping (`app_store.rs`, claim C10) -/

/-- A value in a SQLite result row. -/
inductive SqlValue where
  | null
  | integer (v : Int)
  | real (bits : Nat)
  | text (s : String)
  | blob (bytes : List Nat)
deriving DecidableEq, Repr

/-- `row.get::<_, i32>(i)` (rusqlite, modelled from its `FromSql`
semantics, which this repository relies on): an `INTEGER` column within the
`i32` range; anything else is a column error. -/
def rowGetI32 (row : List SqlValue) (i : Nat) : Except String Int :=
  match row[i]? with
  | none => .error "Invalid column index"
  | some (.integer v) =>
    if v < -2147483648 ∨ 2147483647 < v then .error "Integral value out of range"
    else .ok v
  | some _ => .error "Invalid column type"

/-- `row.get::<_, i64>(i)`. -/
def rowGetI64 (row : List SqlValue) (i : Nat) : Except String Int :=
  match row[i]? with
  | none => .error "Invalid column index"
  | some (.integer v) => .ok v
  | some _ => .error "Invalid column type"

/-- `row.get::<_, Option<i64>>(i)`. -/
def rowGetOptI64 (row : List SqlValue) (i : Nat) : Except String (Option Int) :=
  match row[i]? with
  | none => .error "Invalid column index"
  | some .null => .ok none
  | some (.integer v) => .ok (some v)
  | some _ => .error "Invalid column type"

/-- `row.get::<_, Option<String>>(i)`. -/
def rowGetOptText (row : List SqlValue) (i : Nat) : Except String (Option String) :=
  match row[i]? with
  | none => .error "Invalid column index"
  | some .null => .ok none
  | some (.text s) => .ok (some s)
  | some _ => .error "Invalid column type"

/-- The row-mapping closure of `AppStore::query_records`: topic from the
query, then columns 0..4 in order (partition, offset, timestamp, key,
payload).  A failing `row.get` surfaces as `SqlError` through `?`. -/
def mapSqlRow (topic_name : List Char) (row : List SqlValue) :
    Except Failure ParsedKafkaRecord :=
  match rowGetI32 row 0 with
  | .error e => .error (.raised (.sqlError e))
  | .ok partition =>
    match rowGetI64 row 1 with
    | .error e => .error (.raised (.sqlError e))
    | .ok offset =>
      match rowGetOptI64 row 2 with
      | .error e => .error (.raised (.sqlError e))
      | .ok timestamp =>
        match rowGetOptText row 3 with
        | .error e => .error (.raised (.sqlError e))
        | .ok key =>
          match rowGetOptText row 4 with
          | .error e => .error (.raised (.sqlError e))
          | .ok payload => .ok ⟨topic_name, partition, offset, timestamp, key, payload⟩

/-- The collection loop of `query_records`: map each row, stopping at the
first error. -/
def mapSqlRows (topic_name : List Char) : List (List SqlValue) →
    Except Failure (List ParsedKafkaRecord)
  | [] => .ok []
  | row :: rest =>
    match mapSqlRow topic_name row with
    | .error e => .error e
    | .ok r =>
      match mapSqlRows topic_name rest with
      | .error e => .error e
      | .ok rs => .ok (r :: rs)

/-- The SQL engine as an oracle: executing a prepared statement yields
either result rows or a statement error. -/
structure SqlOracle where
  execute : List Char → Except String (List (List SqlValue))

/-- `AppStore::query_records(query)`: parse the query, execute it, map the
rows positionally. -/
def queryRecords (o : SqlOracle) (q : Query) : Except Failure (List ParsedKafkaRecord) :=
  match o.execute (parse_query q) with
  | .error e => .error (.raised (.sqlError e))
  | .ok rows => mapSqlRows q.topic_name rows

/-- A row decodes without error: at least five columns holding
`INTEGER, INTEGER, INTEGER-or-NULL, TEXT-or-NULL, TEXT-or-NULL`, the first
within `i32` range. -/
def wellFormedRow (row : List SqlValue) : Bool :=
  (rowGetI32 row 0).toBool && (rowGetI64 row 1).toBool && (rowGetOptI64 row 2).toBool &&
    (rowGetOptText row 3).toBool && (rowGetOptText row 4).toBool

/-! ## Cluster aggregate (`lib/cluster.rs`, claim C5) -/

/-- A per-topic `KafkaConsumer` handle, identified by what
`KafkaConsumer::new(&config, topic_name, topic_store)` binds it to. -/
structure KafkaConsumerModel where
  clusterId : List Char
  topic : List Char
deriving DecidableEq, Repr

/-- The state owned by a `Cluster`: the shared `AppStore` and the lazily
filled `topic_name -> Consumer` map. -/
structure ClusterState where
  appStore : Store
  consumers : List (List Char × KafkaConsumerModel)

/-- Modelled from the spec: `TopicStore::from_app_store` (its body is not
under `src/`) creates the record-store table for the (cluster, topic) pair
before the consumer is constructed (spec §4.7: the first caller to request
a consumer for a topic creates the store table then constructs the
Consumer). -/
def fromAppStore (store : Store) (cluster_id topic_name : List Char) :
    Except Failure Store :=
  createTopicTable store cluster_id topic_name

/-- `Cluster::get_consumer(topic_name)`: under the consumer-map mutex, if
no consumer exists for the topic, build its `TopicStore` (which creates the
table) and insert a new consumer; then return the stored consumer. -/
def getConsumer (cs : ClusterState) (cluster_id topic : List Char) :
    Except Failure (ClusterState × KafkaConsumerModel) :=
  match List.lookup topic cs.consumers with
  | some consumer => .ok (cs, consumer)
  | none =>
    match fromAppStore cs.appStore cluster_id topic with
    | .error e => .error e
    | .ok store2 =>
      .ok (⟨store2, (topic, (⟨cluster_id, topic⟩ : KafkaConsumerModel)) :: cs.consumers⟩,
           ⟨cluster_id, topic⟩)

/-- Number of tables named `key` in the store (SQLite keeps this at most
1 by table-name uniqueness; the claims quantify over arbitrary states). -/
def countTables (store : Store) (key : List Char) : Nat :=
  (store.filter (fun kv => key == kv.1)).length

/-! ## HTTP client (`lib/schema_registry/http_client.rs`, claim C9) -/

/-- An HTTP response, reduced to its status code. -/
structure HttpResponse where
  status : Nat
deriving DecidableEq, Repr

/-- One `send()` outcome: a transport/timeout error or a response. -/
structure HttpOracle where
  send : Except String HttpResponse

/-- `StatusCode::is_success()` of the `http` crate: `200 <= status <= 299`. -/
def statusIsSuccess (status : Nat) : Bool := 200 ≤ status && status < 300

/-- `ReqwestClient::delete(url)`: send the request (`?` converts a
transport error into `HttpClient` via `From<reqwest::Error>`), return `()`
on a success status and `HttpClient { "Error calling the delete" }`
otherwise. -/
def reqwestDelete (o : HttpOracle) : Except SchemaRegistryError Unit :=
  match o.send with
  | .error e => .error (.httpClient e)
  | .ok response =>
    if statusIsSuccess response.status then .ok ()
    else .error (.httpClient "Error calling the delete")

/-! ## Consumer-group admin (`lib/admin/consumer_admin.rs`, claim C6) -/

/-- `rdkafka::Offset`. -/
inductive KOffset where
  | beginning
  | atEnd
  | stored
  | invalid
  | off (v : Int)
  | offsetTail (v : Int)
deriving DecidableEq, Repr

/-- `Offset::to_raw()` (modelled from rdkafka): the librdkafka encoding,
`None` for `Invalid` and negative tail offsets. -/
def KOffset.toRaw : KOffset → Option Int
  | .beginning => some (-2)
  | .atEnd => some (-1)
  | .stored => some (-1000)
  | .invalid => none
  | .off v => if 0 ≤ v then some v else none
  | .offsetTail v => if 0 < v then some (-2000 - v) else none

/-- One element of a `TopicPartitionList`. -/
structure TplEntry where
  topic : String
  partition : Int
  offset : KOffset
deriving DecidableEq, Repr

/-- Partition metadata as mapped by `internal_list_topics`. -/
structure PartitionDesc where
  id : Int
  isr : Nat
  replicas : Nat
deriving DecidableEq, Repr

/-- Topic metadata as mapped by `internal_list_topics`. -/
structure Topic where
  name : String
  partitions : List PartitionDesc
deriving DecidableEq, Repr

/-- One consumer group of a `fetch_group_list` response: its name and
state. -/
structure GroupDesc where
  name : String
  state : String
deriving DecidableEq, Repr

/-- `TopicPartitionOffset` of `lib/admin` (the copy with `last_offset`). -/
structure TopicPartitionOffset where
  topic : String
  partition_id : Int
  offset : Int
  last_offset : Int
deriving DecidableEq, Repr

/-- `ConsumerGroupInfo` of `lib/admin`. -/
structure ConsumerGroupInfo where
  name : String
  state : String
  offsets : List TopicPartitionOffset
deriving DecidableEq, Repr

/-- Broker interactions of `describe_consumer_group`, as an oracle:
`list_topics` metadata, `committed_offsets`, `offsets_for_times` and
`fetch_group_list`. -/
structure AdminOracle where
  listTopics : Except String (List Topic)
  committedOffsets : List TplEntry → Except String (List TplEntry)
  offsetsForTimes : List TplEntry → Except String (List TplEntry)
  groupList : Option String → Except String (List GroupDesc)

/-- Inner loop of the `TopicPartitionList` construction: for every
partition of one topic, `add_partition_offset(name, id, Offset::End)`. -/
def tplStep (acc : List TplEntry) (topic : Topic) : List TplEntry :=
  topic.partitions.foldl (fun a p => a ++ [⟨topic.name, p.id, .atEnd⟩]) acc

/-- The `TopicPartitionList` built by `describe_consumer_group`: for every
topic, for every partition, `add_partition_offset(name, id, Offset::End)`. -/
def buildTPL (topics : List Topic) : List TplEntry :=
  topics.foldl tplStep []

/-- `TopicPartitionList::find_partition(topic, partition)`. -/
def findPartition (lst : List TplEntry) (topic : String) (partition : Int) :
    Option TplEntry :=
  lst.find? (fun e => e.topic == topic && e.partition == partition)

/-- The mapping loop over the filtered committed offsets: each entry takes
`offset` from `to_raw().unwrap()` and `last_offset` from
`find_partition(..).unwrap().offset().to_raw().unwrap()` against the
`offsets_for_times` response. -/
def mkOffsets (lastOff : List TplEntry) : List TplEntry →
    Except Failure (List TopicPartitionOffset)
  | [] => .ok []
  | r :: rest =>
    match r.offset.toRaw with
    | none => .error (.panicked "called Option::unwrap on a None value")
    | some rawOff =>
      match findPartition lastOff r.topic r.partition with
      | none => .error (.panicked "called Option::unwrap on a None value")
      | some lr =>
        match lr.offset.toRaw with
        | none => .error (.panicked "called Option::unwrap on a None value")
        | some rawLast =>
          match mkOffsets lastOff rest with
          | .error e => .error e
          | .ok rs => .ok (⟨r.topic, r.partition, rawOff, rawLast⟩ :: rs)

/-- `get_consumer_group_state(name)`: `fetch_group_list(Some(name))`
(`?` on failure), `assert_eq!(groups.len(), 1)` (a panic when violated),
then the state of the single group. -/
def getConsumerGroupState (o : AdminOracle) (name : String) : Except Failure String :=
  match o.groupList (some name) with
  | .error e => .error (.raised (.kafka e))
  | .ok groups =>
    match groups with
    | [g] => .ok g.state
    | _ => .error (.panicked "assertion failed: groups.len() == 1")

/-- `describe_consumer_group(name)` of `lib/admin/consumer_admin.rs`:
list all topics, build the `Offset::End`-seeded `TopicPartitionList`,
fetch committed offsets (`.unwrap()`: a failure panics), fetch
`offsets_for_times` (`?`), keep only entries whose committed offset is not
`Offset::Invalid`, resolve each against the high-watermark response, and
read the group state from a dedicated `fetch_group_list(Some(name))`. -/
def describeConsumerGroup (o : AdminOracle) (name : String) :
    Except Failure ConsumerGroupInfo :=
  match o.listTopics with
  | .error e => .error (.raised (.kafka e))
  | .ok topics =>
    match o.committedOffsets (buildTPL topics) with
    | .error e => .error (.panicked ("called Result::unwrap on an Err value: " ++ e))
    | .ok committed =>
      match o.offsetsForTimes (buildTPL topics) with
      | .error e => .error (.raised (.kafka e))
      | .ok lastOff =>
        match mkOffsets lastOff (committed.filter (fun r => r.offset != KOffset.invalid)) with
        | .error e => .error e
        | .ok offsets =>
          match getConsumerGroupState o name with
          | .error e => .error e
          | .ok state => .ok ⟨name, state, offsets⟩

/-- An optional-`i64` column decodes to exactly this value: `NULL` to
`none`, an `INTEGER` to `some`. -/
def decodedOptI64 (sv : Option SqlValue) (o : Option Int) : Prop :=
  (sv = some .null ∧ o = none) ∨ ∃ v, sv = some (.integer v) ∧ o = some v

/-- An optional-text column decodes to exactly this value. -/
def decodedOptText (sv : Option SqlValue) (o : Option String) : Prop :=
  (sv = some .null ∧ o = none) ∨ ∃ s, sv = some (.text s) ∧ o = some s

/-- The positional column contract of `query_records` (claim C10): the
produced record takes `topic` from the query and columns 0..4, in order,
as partition, offset, timestamp, key and payload. -/
def rowDecodes (topic : List Char) (rec : ParsedKafkaRecord) (row : List SqlValue) : Prop :=
  rec.topic = topic ∧
    row[0]? = some (.integer rec.partition) ∧
    row[1]? = some (.integer rec.offset) ∧
    decodedOptI64 (row[2]?) rec.timestamp ∧
    decodedOptText (row[3]?) rec.key ∧
    decodedOptText (row[4]?) rec.payload

/-! ## Helper lemmas -/

/-- `i32::from_be_bytes` agrees with the folded big-endian reading. -/
theorem i32FromBeBytes_eq_spec (b1 b2 b3 b4 : Nat) :
    i32FromBeBytes b1 b2 b3 b4 = specBigEndianI32 [b1, b2, b3, b4] := by
  unfold i32FromBeBytes specBigEndianI32
  simp only [List.foldl]
  have h : (b1 % 256) * 16777216 + (b2 % 256) * 65536 + (b3 % 256) * 256 + b4 % 256 =
      (((0 * 256 + b1 % 256) * 256 + b2 % 256) * 256 + b3 % 256) * 256 + b4 % 256 := by
    ring
  rw [h]

/-- Seeding a union over a cache that maps `n` to some record named `n`
keeps `n` mapped to some record named `n` (a later `Record` variant can
shadow it, but only with a record of the same name). -/
theorem seedUnionRecords_preserves (vs : List AvroSchema) (c : RefCache) (n : String)
    (h : ∃ fs lk, RefCache.get n c = some (.recordS n fs lk)) :
    ∃ fs lk, RefCache.get n (seedUnionRecords vs c) = some (.recordS n fs lk) := by
  induction vs generalizing c with
  | nil => exact h
  | cons x xs ih =>
    have hstep : seedUnionRecords (x :: xs) c =
        seedUnionRecords xs
          (match x with
           | .recordS m mf ml => RefCache.insert m (.recordS m mf ml) c
           | _ => c) := by
      cases x <;> rfl
    rw [hstep]
    cases x with
    | recordS m mf ml =>
      by_cases hnm : n = m
      · subst hnm
        exact ih _ ⟨mf, ml, by simp [RefCache.get, RefCache.insert, List.lookup]⟩
      · refine ih _ ?_
        obtain ⟨fs, lk, hc⟩ := h
        refine ⟨fs, lk, ?_⟩
        have hbeq : (n == m) = false := beq_eq_false_iff_ne.mpr hnm
        simpa [RefCache.get, RefCache.insert, List.lookup, hbeq] using hc
    | null => exact ih _ h
    | boolean => exact ih _ h
    | int => exact ih _ h
    | long => exact ih _ h
    | float => exact ih _ h
    | double => exact ih _ h
    | bytes => exact ih _ h
    | string => exact ih _ h
    | arrayS s => exact ih _ h
    | mapS s => exact ih _ h
    | unionS vs2 => exact ih _ h
    | enumS a b => exact ih _ h
    | fixedS a b => exact ih _ h
    | decimalS a b i => exact ih _ h
    | uuid => exact ih _ h
    | date => exact ih _ h
    | timeMillis => exact ih _ h
    | timeMicros => exact ih _ h
    | timestampMillis => exact ih _ h
    | timestampMicros => exact ih _ h
    | duration => exact ih _ h
    | ref a => exact ih _ h

/-- After seeding, every `Record` variant of the union is reachable by
name in the cache (possibly shadowed by a later record of the same name). -/
theorem seedUnionRecords_resolves (vs : List AvroSchema) (c : RefCache) (n : String)
    (fs : List (String × AvroSchema)) (lk : List (String × Nat))
    (hmem : AvroSchema.recordS n fs lk ∈ vs) :
    ∃ fs2 lk2, RefCache.get n (seedUnionRecords vs c) = some (.recordS n fs2 lk2) := by
  induction vs generalizing c with
  | nil => cases hmem
  | cons x xs ih =>
    have hstep : seedUnionRecords (x :: xs) c =
        seedUnionRecords xs
          (match x with
           | .recordS m mf ml => RefCache.insert m (.recordS m mf ml) c
           | _ => c) := by
      cases x <;> rfl
    rw [hstep]
    rcases List.mem_cons.mp hmem with hx | hxs
    · subst hx
      exact seedUnionRecords_preserves xs _ n
        ⟨fs, lk, by simp [RefCache.get, RefCache.insert, List.lookup]⟩
    · cases x <;> exact ih _ hxs

/-! ## Claim theorems -/

/-- C1 (counterexample): a union whose variants are a named `Fixed` and an
array of `Ref` to that `Fixed`: the datum selects the array variant, and
the `Ref` to the named `Fixed` variant does NOT resolve — the projection
aborts with the missing-reference panic, because the pre-seeding loop only
inserts `Record` variants. -/
theorem c1_union_ref_counterexample :
    mapAvro 5 (.union 1 (.array [.fixedV 1 [0]]))
        (.unionS [.fixedS "f" 1, .arrayS (.ref "f")]) [] =
      .error (.panicked "Missing Avro schema reference f") := rfl

/-- C1 (amended): when the projection meets `Union(i, v)` it projects `v`
against variant `i`, pre-seeding the ref table with the `Record` variants
of the union only; consequently every `Ref` to a `Record` variant of the
union resolves, while `Enum` and `Fixed` variants are not pre-seeded. -/
theorem c1_union_preseeds_record_variants :
    (∀ (fuel i : Nat) (v : AvroValue) (vs : List AvroSchema) (c : RefCache)
        (s : AvroSchema), vs.get? i = some s →
        mapAvro (fuel + 1) (.union i v) (.unionS vs) c =
          mapAvro fuel v s (seedUnionRecords vs c)) ∧
    (∀ (vs : List AvroSchema) (c : RefCache) (n : String)
        (fs : List (String × AvroSchema)) (lk : List (String × Nat)),
        AvroSchema.recordS n fs lk ∈ vs →
        ∃ fs2 lk2, RefCache.get n (seedUnionRecords vs c) = some (.recordS n fs2 lk2)) := by
  constructor
  · intro fuel i v vs c s h
    rw [List.get?_eq_getElem?] at h
    simp [mapAvro, h]
  · intro vs c n fs lk hmem
    exact seedUnionRecords_resolves vs c n fs lk hmem

/-- C1 (witness for the amended theorem). -/
theorem c1_union_preseeds_record_variants_witness :
    mapAvro 2 (.union 0 (.record [])) (.unionS [.recordS "r" [] []]) [] =
        mapAvro 1 (.record []) (.recordS "r" [] [])
          (seedUnionRecords [.recordS "r" [] []] []) ∧
      ∃ fs2 lk2, RefCache.get "r" (seedUnionRecords [.recordS "r" [] []] []) =
        some (.recordS "r" fs2 lk2) :=
  ⟨c1_union_preseeds_record_variants.1 1 0 (.record []) [.recordS "r" [] []] []
      (.recordS "r" [] []) rfl,
   c1_union_preseeds_record_variants.2 [.recordS "r" [] []] [] "r" [] []
      (List.mem_singleton.mpr rfl)⟩

/-- C2 (counterexample): projecting `Null` against `Ref{"x"}` with an empty
ref table does not return an `AvroParse` error — it aborts through
`panic!("Missing Avro schema reference ..")`. -/
theorem c2_ref_panic_counterexample :
    mapAvro 1 .null (.ref "x") [] =
        .error (.panicked "Missing Avro schema reference x") ∧
      isAvroParseError (mapAvro 1 .null (.ref "x") []) = false :=
  ⟨rfl, rfl⟩

/-- C2 (amended): a `Ref` whose name is missing from the ref table, and any
(value, schema) pair matching no projection rule, make the projection abort
with a panic (not return an `AvroParse` error). -/
theorem c2_missing_ref_and_mismatch_panic :
    (∀ (fuel : Nat) (v : AvroValue) (name : String) (c : RefCache),
        RefCache.get name c = none →
        mapAvro (fuel + 1) v (.ref name) c =
          .error (.panicked ("Missing Avro schema reference " ++ name))) ∧
    (∀ (fuel : Nat) (v : AvroValue) (s : AvroSchema) (c : RefCache),
        matchesRule v s = false →
        mapAvro (fuel + 1) v s c = .error (.panicked "Unexpected value/schema tuple")) := by
  constructor
  · intro fuel v name c h
    cases v <;> simp [mapAvro, h]
  · intro fuel v s c h
    cases v <;> cases s <;> first | rfl | exact Bool.noConfusion h

/-- C2 (witness for the amended theorem). -/
theorem c2_missing_ref_and_mismatch_panic_witness :
    mapAvro 1 AvroValue.null (.ref "y") [] =
        .error (.panicked ("Missing Avro schema reference " ++ "y")) ∧
      mapAvro 1 (AvroValue.int 3) .long [] =
        .error (.panicked "Unexpected value/schema tuple") :=
  ⟨c2_missing_ref_and_mismatch_panic.1 0 .null "y" [] rfl,
   c2_missing_ref_and_mismatch_panic.2 0 (.int 3) .long [] rfl⟩

/-- C7: any payload of length at most 5, or whose first byte is not 0x00,
makes both Avro payload parsers fail (the current one with
`Error::AvroParse`, the older duplicate with its `TauriError`), and any
successful parse implies length over 5 with first byte 0x00. -/
theorem c7_framing_gate :
    (∀ (fuel : Nat) (o : AvroParserOracle) (raw : List Nat),
        raw.length ≤ 5 ∨ raw.getD 0 0 ≠ 0 →
        parsePayload fuel o raw = .error (.raised (.avroParse
          "Supported avro messages should start with 0x00 follow by the schema id (4 bytes)"))) ∧
    (∀ (fuel : Nat) (o : AvroParserOracle) (raw : List Nat) (s : String),
        parsePayload fuel o raw = .ok s → 5 < raw.length ∧ raw.getD 0 0 = 0) ∧
    (∀ (o : KafkaAvroOracle) (raw : List Nat),
        raw.length ≤ 5 ∨ raw.getD 0 0 ≠ 0 →
        parseAvroKafka o raw = .error ⟨"Invalid AVRO byte array received",
          "Supported avro messages should start with 0x00 follow by the schema id (4 bytes)"⟩) ∧
    (∀ (o : KafkaAvroOracle) (raw : List Nat) (s : String),
        parseAvroKafka o raw = .ok s → 5 < raw.length ∧ raw.getD 0 0 = 0) := by
  refine ⟨?_, ?_, ?_, ?_⟩
  · intro fuel o raw h
    unfold parsePayload
    rw [if_pos h]
  · intro fuel o raw s hok
    by_cases h : raw.length ≤ 5 ∨ raw.getD 0 0 ≠ 0
    · unfold parsePayload at hok
      rw [if_pos h] at hok
      cases hok
    · push_neg at h
      exact ⟨h.1, h.2⟩
  · intro o raw h
    unfold parseAvroKafka
    rw [if_pos h]
  · intro o raw s hok
    by_cases h : raw.length ≤ 5 ∨ raw.getD 0 0 ≠ 0
    · unfold parseAvroKafka at hok
      rw [if_pos h] at hok
      cases hok
    · push_neg at h
      exact ⟨h.1, h.2⟩

/-- C7 (witness). -/
theorem c7_framing_gate_witness :
    parsePayload 1 ⟨fun _ => .error "", fun _ _ => .error "", fun _ => .error ""⟩ [0, 0, 0, 0, 0] =
        .error (.raised (.avroParse
          "Supported avro messages should start with 0x00 follow by the schema id (4 bytes)")) ∧
      parseAvroKafka ⟨fun _ _ => .error ⟨"", ""⟩⟩ [1, 0, 0, 0, 0, 0, 0] =
        .error ⟨"Invalid AVRO byte array received",
          "Supported avro messages should start with 0x00 follow by the schema id (4 bytes)"⟩ :=
  ⟨c7_framing_gate.1 1 _ [0, 0, 0, 0, 0] (by decide),
   c7_framing_gate.2.2.1 _ [1, 0, 0, 0, 0, 0, 0] (by decide)⟩

/-- C8: for every byte array with at least 5 bytes whose first byte is 0,
`get_schema_id` returns the big-endian signed 32-bit reading of bytes
1..5, and on `[00, 00, 01, 86, C5, 00, 00, 00]` it returns 100037. -/
theorem c8_schema_id_big_endian (b : List Nat) (h5 : 5 ≤ b.length)
    (h0 : b.getD 0 0 = 0) :
    getSchemaId b = .ok (specBigEndianI32 ((b.drop 1).take 4)) ∧
      getSchemaId [0, 0, 1, 134, 197, 0, 0, 0] = .ok 100037 := by
  constructor
  · rcases b with _ | ⟨b0, _ | ⟨b1, _ | ⟨b2, _ | ⟨b3, _ | ⟨b4, rest⟩⟩⟩⟩⟩ <;>
      simp_all [getSchemaId, i32FromBeBytes_eq_spec, List.getD]
  · rfl

/-- C8 (witness). -/
theorem c8_schema_id_big_endian_witness :
    getSchemaId [0, 0, 1, 134, 197, 0, 0, 0] =
        .ok (specBigEndianI32 (([0, 0, 1, 134, 197, 0, 0, 0].drop 1).take 4)) ∧
      getSchemaId [0, 0, 1, 134, 197, 0, 0, 0] = .ok 100037 :=
  c8_schema_id_big_endian [0, 0, 1, 134, 197, 0, 0, 0] (by decide) (by decide)

/-- C9: with a response in hand, `delete` returns `()` exactly when the
status is 2xx, and any non-2xx status yields
`HttpClient { "Error calling the delete" }`. -/
theorem c9_delete_success_iff_2xx (o : HttpOracle) (resp : HttpResponse)
    (hsend : o.send = .ok resp) :
    (reqwestDelete o = .ok () ↔ 200 ≤ resp.status ∧ resp.status ≤ 299) ∧
      (¬(200 ≤ resp.status ∧ resp.status ≤ 299) →
        reqwestDelete o = .error (.httpClient "Error calling the delete")) := by
  have hred : reqwestDelete o =
      (if statusIsSuccess resp.status then .ok ()
       else .error (.httpClient "Error calling the delete")) := by
    unfold reqwestDelete
    rw [hsend]
  rw [hred]
  by_cases h : statusIsSuccess resp.status
  · have hs : 200 ≤ resp.status ∧ resp.status ≤ 299 := by
      have h2 := h
      unfold statusIsSuccess at h2
      rw [Bool.and_eq_true] at h2
      have g1 := of_decide_eq_true h2.1
      have g2 := of_decide_eq_true h2.2
      omega
    rw [if_pos h]
    exact ⟨by simp [hs], fun hc => absurd hs hc⟩
  · have hs : ¬(200 ≤ resp.status ∧ resp.status ≤ 299) := by
      intro hc
      apply h
      unfold statusIsSuccess
      rw [Bool.and_eq_true]
      exact ⟨decide_eq_true (by omega), decide_eq_true (by omega)⟩
    rw [if_neg h]
    refine ⟨⟨fun habs => Except.noConfusion habs, fun hc => absurd hc hs⟩, fun _ => rfl⟩

/-- C9 (witness). -/
theorem c9_delete_success_iff_2xx_witness :
    (reqwestDelete ⟨.ok ⟨500⟩⟩ = .ok () ↔ 200 ≤ 500 ∧ 500 ≤ 299) ∧
      (¬(200 ≤ 500 ∧ 500 ≤ 299) →
        reqwestDelete ⟨.ok ⟨500⟩⟩ = .error (.httpClient "Error calling the delete")) :=
  c9_delete_success_iff_2xx ⟨.ok ⟨500⟩⟩ ⟨500⟩ rfl

/-- A table name absent from the store occurs zero times. -/
theorem countTables_eq_zero_of_lookup_none (store : Store) (key : List Char)
    (h : List.lookup key store = none) : countTables store key = 0 := by
  induction store with
  | nil => rfl
  | cons kv rest ih =>
    obtain ⟨k, v⟩ := kv
    cases hbeq : (key == k) with
    | true => simp [List.lookup, hbeq] at h
    | false =>
      have h2 : List.lookup key rest = none := by simpa [List.lookup, hbeq] using h
      unfold countTables at ih ⊢
      simp [List.filter_cons, hbeq, ih h2]

/-- C5 (counterexample): creating the same topic table twice in a row does
not succeed idempotently — the second `CREATE TABLE` fails and the
surrounding `unwrap_or_else` panics. -/
theorem c5_second_create_counterexample :
    (createTopicTable [] "c".toList "t".toList).bind
        (fun st => createTopicTable st "c".toList "t".toList) =
      .error (.panicked "Unable to create the table for c t") := by
  rfl

/-- C5 (amended): `create_topic_table` is not idempotent — a second call
for the same pair panics; nevertheless the store never gains a second
table for a pair (a successful create requires the table to be absent and
leaves exactly one), and the lazy consumer path creates the table only on
the first request for a topic, returning the cached consumer untouched
afterwards. -/
theorem c5_table_uniqueness_and_lazy_create :
    (∀ (store : Store) (c t : List Char),
        (List.lookup (tableName c t) store).isSome →
        createTopicTable store c t = .error (.panicked (String.mk
          ("Unable to create the table for ".toList ++ c ++ " ".toList ++ t)))) ∧
    (∀ (store : Store) (c t : List Char) (store2 : Store),
        createTopicTable store c t = .ok store2 →
        List.lookup (tableName c t) store = none ∧
          countTables store2 (tableName c t) = 1) ∧
    (∀ (cs : ClusterState) (cid t : List Char) (consumer : KafkaConsumerModel),
        List.lookup t cs.consumers = some consumer →
        getConsumer cs cid t = .ok (cs, consumer)) ∧
    (∀ (cs : ClusterState) (cid t : List Char),
        List.lookup t cs.consumers = none →
        List.lookup (tableName cid t) cs.appStore = none →
        getConsumer cs cid t =
          .ok (⟨(tableName cid t, []) :: cs.appStore, (t, ⟨cid, t⟩) :: cs.consumers⟩,
               ⟨cid, t⟩)) := by
  refine ⟨?_, ?_, ?_, ?_⟩
  · intro store c t h
    unfold createTopicTable
    cases hl : List.lookup (tableName c t) store with
    | none => rw [hl] at h; cases h
    | some v => rfl
  · intro store c t store2 h
    unfold createTopicTable at h
    cases hl : List.lookup (tableName c t) store with
    | some v => rw [hl] at h; exact Except.noConfusion h
    | none =>
      rw [hl] at h
      injection h with h2
      subst h2
      refine ⟨rfl, ?_⟩
      unfold countTables
      simp [List.filter_cons]
      have hz := countTables_eq_zero_of_lookup_none store (tableName c t) hl
      unfold countTables at hz
      simpa using hz
  · intro cs cid t consumer h
    unfold getConsumer
    rw [h]
  · intro cs cid t hcons htab
    unfold getConsumer
    rw [hcons]
    unfold fromAppStore createTopicTable
    rw [htab]

/-- C5 (witness for the amended theorem). -/
theorem c5_table_uniqueness_and_lazy_create_witness :
    createTopicTable [(tableName "c".toList "t".toList, [])] "c".toList "t".toList =
        .error (.panicked (String.mk
          ("Unable to create the table for ".toList ++ "c".toList ++ " ".toList ++ "t".toList))) ∧
      (List.lookup (tableName "c".toList "t".toList) ([] : Store) = none ∧
        countTables [(tableName "c".toList "t".toList, [])] (tableName "c".toList "t".toList) = 1) ∧
      getConsumer ⟨[], [("t".toList, ⟨"c".toList, "t".toList⟩)]⟩ "c".toList "t".toList =
        .ok (⟨[], [("t".toList, ⟨"c".toList, "t".toList⟩)]⟩, ⟨"c".toList, "t".toList⟩) ∧
      getConsumer ⟨[], []⟩ "c".toList "t".toList =
        .ok (⟨[(tableName "c".toList "t".toList, [])],
              [("t".toList, ⟨"c".toList, "t".toList⟩)]⟩, ⟨"c".toList, "t".toList⟩) :=
  ⟨c5_table_uniqueness_and_lazy_create.1 _ _ _ rfl,
   c5_table_uniqueness_and_lazy_create.2.1 [] _ _ _ rfl,
   c5_table_uniqueness_and_lazy_create.2.2.1 _ _ _ _ rfl,
   c5_table_uniqueness_and_lazy_create.2.2.2 _ _ _ rfl rfl⟩

/-- An `INTEGER` column read as `i32` determines the column value. -/
theorem rowGetI32_ok (row : List SqlValue) (i : Nat) (v : Int)
    (h : rowGetI32 row i = .ok v) : row[i]? = some (.integer v) := by
  cases hg : row[i]? with
  | none => simp [rowGetI32, hg] at h
  | some sv =>
    cases sv with
    | integer w =>
      simp only [rowGetI32, hg] at h
      split at h
      · exact Except.noConfusion h
      · injection h with h2
        rw [h2]
    | null => simp [rowGetI32, hg] at h
    | real bits => simp [rowGetI32, hg] at h
    | text s => simp [rowGetI32, hg] at h
    | blob bytes => simp [rowGetI32, hg] at h

/-- An `INTEGER` column read as `i64` determines the column value. -/
theorem rowGetI64_ok (row : List SqlValue) (i : Nat) (v : Int)
    (h : rowGetI64 row i = .ok v) : row[i]? = some (.integer v) := by
  cases hg : row[i]? with
  | none => simp [rowGetI64, hg] at h
  | some sv =>
    cases sv with
    | integer w =>
      simp only [rowGetI64, hg] at h
      injection h with h2
      rw [h2]
    | null => simp [rowGetI64, hg] at h
    | real bits => simp [rowGetI64, hg] at h
    | text s => simp [rowGetI64, hg] at h
    | blob bytes => simp [rowGetI64, hg] at h

/-- A successful optional-`i64` read decodes the column. -/
theorem rowGetOptI64_ok (row : List SqlValue) (i : Nat) (o : Option Int)
    (h : rowGetOptI64 row i = .ok o) : decodedOptI64 (row[i]?) o := by
  cases hg : row[i]? with
  | none => simp [rowGetOptI64, hg] at h
  | some sv =>
    cases sv with
    | null =>
      simp only [rowGetOptI64, hg] at h
      injection h with h2
      exact Or.inl ⟨rfl, h2.symm⟩
    | integer w =>
      simp only [rowGetOptI64, hg] at h
      injection h with h2
      exact Or.inr ⟨w, rfl, h2.symm⟩
    | real bits => simp [rowGetOptI64, hg] at h
    | text s => simp [rowGetOptI64, hg] at h
    | blob bytes => simp [rowGetOptI64, hg] at h

/-- A successful optional-text read decodes the column. -/
theorem rowGetOptText_ok (row : List SqlValue) (i : Nat) (o : Option String)
    (h : rowGetOptText row i = .ok o) : decodedOptText (row[i]?) o := by
  cases hg : row[i]? with
  | none => simp [rowGetOptText, hg] at h
  | some sv =>
    cases sv with
    | null =>
      simp only [rowGetOptText, hg] at h
      injection h with h2
      exact Or.inl ⟨rfl, h2.symm⟩
    | text s =>
      simp only [rowGetOptText, hg] at h
      injection h with h2
      exact Or.inr ⟨s, rfl, h2.symm⟩
    | integer w => simp [rowGetOptText, hg] at h
    | real bits => simp [rowGetOptText, hg] at h
    | blob bytes => simp [rowGetOptText, hg] at h

/-- A successfully mapped row satisfies the positional column contract. -/
theorem mapSqlRow_ok (topic : List Char) (row : List SqlValue) (rec : ParsedKafkaRecord)
    (h : mapSqlRow topic row = .ok rec) : rowDecodes topic rec row := by
  unfold mapSqlRow at h
  cases h0 : rowGetI32 row 0 with
  | error e => rw [h0] at h; exact Except.noConfusion h
  | ok p =>
    rw [h0] at h
    cases h1 : rowGetI64 row 1 with
    | error e => rw [h1] at h; exact Except.noConfusion h
    | ok off =>
      rw [h1] at h
      cases h2 : rowGetOptI64 row 2 with
      | error e => rw [h2] at h; exact Except.noConfusion h
      | ok ts =>
        rw [h2] at h
        cases h3 : rowGetOptText row 3 with
        | error e => rw [h3] at h; exact Except.noConfusion h
        | ok key =>
          rw [h3] at h
          cases h4 : rowGetOptText row 4 with
          | error e => rw [h4] at h; exact Except.noConfusion h
          | ok payload =>
            rw [h4] at h
            injection h with h5
            subst h5
            exact ⟨rfl, rowGetI32_ok row 0 p h0, rowGetI64_ok row 1 off h1,
              rowGetOptI64_ok row 2 ts h2, rowGetOptText_ok row 3 key h3,
              rowGetOptText_ok row 4 payload h4⟩

/-- A failed row mapping always fails with `SqlError`. -/
theorem mapSqlRow_error_shape (topic : List Char) (row : List SqlValue) (e : Failure)
    (h : mapSqlRow topic row = .error e) : ∃ m, e = .raised (.sqlError m) := by
  unfold mapSqlRow at h
  cases h0 : rowGetI32 row 0 with
  | error m => rw [h0] at h; injection h with h2; exact ⟨m, h2.symm⟩
  | ok p =>
    rw [h0] at h
    cases h1 : rowGetI64 row 1 with
    | error m => rw [h1] at h; injection h with h2; exact ⟨m, h2.symm⟩
    | ok off =>
      rw [h1] at h
      cases h2 : rowGetOptI64 row 2 with
      | error m => rw [h2] at h; injection h with h3; exact ⟨m, h3.symm⟩
      | ok ts =>
        rw [h2] at h
        cases h3 : rowGetOptText row 3 with
        | error m => rw [h3] at h; injection h with h4; exact ⟨m, h4.symm⟩
        | ok key =>
          rw [h3] at h
          cases h4 : rowGetOptText row 4 with
          | error m => rw [h4] at h; injection h with h5; exact ⟨m, h5.symm⟩
          | ok payload => rw [h4] at h; exact Except.noConfusion h

/-- A row failing `wellFormedRow` makes the row mapping fail with
`SqlError`. -/
theorem mapSqlRow_error_of_not_wf (topic : List Char) (row : List SqlValue)
    (hwf : wellFormedRow row = false) :
    ∃ m, mapSqlRow topic row = .error (.raised (.sqlError m)) := by
  cases h0 : rowGetI32 row 0 with
  | error m => exact ⟨m, by unfold mapSqlRow; rw [h0]⟩
  | ok p =>
    cases h1 : rowGetI64 row 1 with
    | error m => exact ⟨m, by unfold mapSqlRow; rw [h0, h1]⟩
    | ok off =>
      cases h2 : rowGetOptI64 row 2 with
      | error m => exact ⟨m, by unfold mapSqlRow; rw [h0, h1, h2]⟩
      | ok ts =>
        cases h3 : rowGetOptText row 3 with
        | error m => exact ⟨m, by unfold mapSqlRow; rw [h0, h1, h2, h3]⟩
        | ok key =>
          cases h4 : rowGetOptText row 4 with
          | error m => exact ⟨m, by unfold mapSqlRow; rw [h0, h1, h2, h3, h4]⟩
          | ok payload =>
            exfalso
            unfold wellFormedRow at hwf
            rw [h0, h1, h2, h3, h4] at hwf
            simp [Except.toBool] at hwf

/-- A successful collection satisfies the positional contract row by
row. -/
theorem mapSqlRows_ok_forall (topic : List Char) (rows : List (List SqlValue))
    (recs : List ParsedKafkaRecord) (h : mapSqlRows topic rows = .ok recs) :
    List.Forall₂ (fun rec row => rowDecodes topic rec row) recs rows := by
  induction rows generalizing recs with
  | nil =>
    unfold mapSqlRows at h
    injection h with h2
    subst h2
    exact List.Forall₂.nil
  | cons row rest ih =>
    unfold mapSqlRows at h
    cases hmr : mapSqlRow topic row with
    | error e => rw [hmr] at h; exact Except.noConfusion h
    | ok rec =>
      rw [hmr] at h
      cases hrest : mapSqlRows topic rest with
      | error e => rw [hrest] at h; exact Except.noConfusion h
      | ok rs =>
        rw [hrest] at h
        injection h with h2
        subst h2
        exact List.Forall₂.cons (mapSqlRow_ok topic row rec hmr) (ih rs hrest)

/-- A collection containing an ill-formed row fails with `SqlError`. -/
theorem mapSqlRows_error_of_bad (topic : List Char) (rows : List (List SqlValue))
    (hbad : ∃ r ∈ rows, wellFormedRow r = false) :
    ∃ m, mapSqlRows topic rows = .error (.raised (.sqlError m)) := by
  induction rows with
  | nil =>
    obtain ⟨r, hr, _⟩ := hbad
    cases hr
  | cons row rest ih =>
    obtain ⟨b, hb, hbwf⟩ := hbad
    rcases List.mem_cons.mp hb with hhead | hbrest
    · subst hhead
      obtain ⟨m, hm⟩ := mapSqlRow_error_of_not_wf topic b hbwf
      exact ⟨m, by unfold mapSqlRows; rw [hm]⟩
    · cases hmr : mapSqlRow topic row with
      | error e =>
        obtain ⟨m, hm⟩ := mapSqlRow_error_shape topic row e hmr
        refine ⟨m, ?_⟩
        unfold mapSqlRows
        rw [hmr, hm]
      | ok rec =>
        obtain ⟨m, hm⟩ := ih ⟨b, hbrest, hbwf⟩
        refine ⟨m, ?_⟩
        unfold mapSqlRows
        rw [hmr, hm]

/-- C10: whatever rows the SQL engine returns for the parsed template,
`query_records` maps each returned record strictly by column position —
column 0 partition, 1 offset, 2 timestamp, 3 key, 4 payload — taking
`topic` from the query; and any result set containing a row without these
five columns in these types yields `SqlError` instead of records. -/
theorem c10_positional_row_mapping :
    (∀ (o : SqlOracle) (q : Query) (rows : List (List SqlValue))
        (recs : List ParsedKafkaRecord),
        o.execute (parse_query q) = .ok rows →
        queryRecords o q = .ok recs →
        List.Forall₂ (fun rec row => rowDecodes q.topic_name rec row) recs rows) ∧
    (∀ (o : SqlOracle) (q : Query) (rows : List (List SqlValue)),
        o.execute (parse_query q) = .ok rows →
        (∃ r ∈ rows, wellFormedRow r = false) →
        ∃ m, queryRecords o q = .error (.raised (.sqlError m))) := by
  constructor
  · intro o q rows recs hexec hok
    unfold queryRecords at hok
    rw [hexec] at hok
    exact mapSqlRows_ok_forall q.topic_name rows recs hok
  · intro o q rows hexec hbad
    obtain ⟨m, hm⟩ := mapSqlRows_error_of_bad q.topic_name rows hbad
    refine ⟨m, ?_⟩
    simp only [queryRecords, hexec]
    exact hm

/-- C10 (witness): a single well-typed row maps to one record, and a
single ill-typed row (text in the partition column) yields `SqlError`. -/
theorem c10_positional_row_mapping_witness :
    List.Forall₂
        (fun rec row => rowDecodes ("t".toList : List Char) rec row)
        [⟨"t".toList, 2, 7, some 5, some "k", none⟩]
        [[SqlValue.integer 2, SqlValue.integer 7, SqlValue.integer 5,
          SqlValue.text "k", SqlValue.null]] ∧
      ∃ m, queryRecords ⟨fun _ => .ok [[SqlValue.text "bad"]]⟩
          ⟨"c".toList, "t".toList, 0, 0, "q".toList⟩ =
        .error (.raised (.sqlError m)) :=
  ⟨c10_positional_row_mapping.1
      ⟨fun _ => .ok [[SqlValue.integer 2, SqlValue.integer 7, SqlValue.integer 5,
        SqlValue.text "k", SqlValue.null]]⟩
      ⟨"c".toList, "t".toList, 0, 0, "q".toList⟩ _ _ rfl rfl,
   c10_positional_row_mapping.2
      ⟨fun _ => .ok [[SqlValue.text "bad"]]⟩
      ⟨"c".toList, "t".toList, 0, 0, "q".toList⟩ [[SqlValue.text "bad"]] rfl
      ⟨[SqlValue.text "bad"], List.mem_singleton.mpr rfl, rfl⟩⟩

/-- Appending through a fold that appends one mapped element at a time. -/
theorem foldl_append_map {α β : Type} (f : α → β) (l : List α) (acc : List β) :
    l.foldl (fun a x => a ++ [f x]) acc = acc ++ l.map f := by
  induction l generalizing acc with
  | nil => simp
  | cons x xs ih => simp [ih, List.append_assoc]

/-- `tplStep` appends the partition entries of one topic. -/
theorem tplStep_eq_append_map (acc : List TplEntry) (t : Topic) :
    tplStep acc t =
      acc ++ t.partitions.map (fun p => (⟨t.name, p.id, .atEnd⟩ : TplEntry)) := by
  unfold tplStep
  rw [foldl_append_map]

/-- The outer topic fold of `buildTPL` distributes over its accumulator. -/
theorem buildTPL_foldl_acc (ts : List Topic) (acc : List TplEntry) :
    ts.foldl tplStep acc = acc ++ ts.foldl tplStep [] := by
  induction ts generalizing acc with
  | nil => simp
  | cons t ts2 ih =>
    show List.foldl tplStep (tplStep acc t) ts2 = acc ++ List.foldl tplStep (tplStep [] t) ts2
    rw [ih (tplStep acc t), ih (tplStep [] t)]
    rw [tplStep_eq_append_map acc t, tplStep_eq_append_map [] t]
    simp [List.append_assoc]

/-- `buildTPL` unfolds one topic at a time. -/
theorem buildTPL_cons (t : Topic) (ts : List Topic) :
    buildTPL (t :: ts) =
      t.partitions.map (fun p => (⟨t.name, p.id, .atEnd⟩ : TplEntry)) ++ buildTPL ts := by
  unfold buildTPL
  show List.foldl tplStep (tplStep [] t) ts = _
  rw [buildTPL_foldl_acc, tplStep_eq_append_map [] t]
  simp

/-- Every entry produced by `mkOffsets` stems from a source entry with the
same topic and partition whose offset has that raw value. -/
theorem mkOffsets_mem (lastOff : List TplEntry) (l : List TplEntry)
    (res : List TopicPartitionOffset) (h : mkOffsets lastOff l = .ok res) :
    ∀ e ∈ res, ∃ r ∈ l, r.topic = e.topic ∧ r.partition = e.partition_id ∧
      r.offset.toRaw = some e.offset := by
  induction l generalizing res with
  | nil =>
    unfold mkOffsets at h
    injection h with h2
    subst h2
    intro e he
    cases he
  | cons r rest ih =>
    cases hraw : r.offset.toRaw with
    | none => simp only [mkOffsets, hraw] at h; exact Except.noConfusion h
    | some rawOff =>
      simp only [mkOffsets, hraw] at h
      cases hfp : findPartition lastOff r.topic r.partition with
      | none => simp only [hfp] at h; exact Except.noConfusion h
      | some lr =>
        simp only [hfp] at h
        cases hlraw : lr.offset.toRaw with
        | none => simp only [hlraw] at h; exact Except.noConfusion h
        | some rawLast =>
          simp only [hlraw] at h
          cases hrest : mkOffsets lastOff rest with
          | error e => simp only [hrest] at h; exact Except.noConfusion h
          | ok rs =>
            simp only [hrest] at h
            injection h with h2
            subst h2
            intro e he
            rcases List.mem_cons.mp he with hhead | htail
            · subst hhead
              exact ⟨r, List.mem_cons_self r rest, rfl, rfl, hraw⟩
            · obtain ⟨r2, hr2, hprops⟩ := ih rs hrest e htail
              exact ⟨r2, List.mem_cons_of_mem r hr2, hprops⟩

/-- C6: the probe `TopicPartitionList` spans exactly every partition of
every topic, each seeded at `Offset::End`; a successful
`describe_consumer_group` keeps only committed entries that are not
`Offset::Invalid` (each resolved to its raw offset), and its `state` comes
from a `fetch_group_list(Some(name))` response containing exactly one
group. -/
theorem c6_describe_consumer_group :
    (∀ (topics : List Topic) (e : TplEntry),
        e ∈ buildTPL topics ↔
          e.offset = KOffset.atEnd ∧
            ∃ t ∈ topics, t.name = e.topic ∧ ∃ p ∈ t.partitions, p.id = e.partition) ∧
    (∀ (o : AdminOracle) (name : String) (info : ConsumerGroupInfo),
        describeConsumerGroup o name = .ok info →
        ∃ topics committed,
          o.listTopics = .ok topics ∧
            o.committedOffsets (buildTPL topics) = .ok committed ∧
            (∀ e ∈ info.offsets, ∃ r ∈ committed, r.offset ≠ KOffset.invalid ∧
              r.topic = e.topic ∧ r.partition = e.partition_id ∧
              r.offset.toRaw = some e.offset) ∧
            ∃ g, o.groupList (some name) = .ok [g] ∧ info.state = g.state ∧
              info.name = name) := by
  constructor
  · intro topics e
    induction topics with
    | nil => simp [buildTPL]
    | cons t ts ih =>
      rw [buildTPL_cons, List.mem_append, ih]
      constructor
      · rintro (hmap | ⟨hoff, t2, ht2, hname, p, hp, hid⟩)
        · obtain ⟨p, hp, hpe⟩ := List.mem_map.mp hmap
          subst hpe
          exact ⟨rfl, t, List.mem_cons_self t ts, rfl, p, hp, rfl⟩
        · exact ⟨hoff, t2, List.mem_cons_of_mem t ht2, hname, p, hp, hid⟩
      · rintro ⟨hoff, t2, ht2, hname, p, hp, hid⟩
        rcases List.mem_cons.mp ht2 with hhead | htail
        · subst hhead
          left
          refine List.mem_map.mpr ⟨p, hp, ?_⟩
          obtain ⟨et, ep, eo⟩ := e
          simp only at hname hid hoff
          rw [hname, hid, hoff]
        · exact Or.inr ⟨hoff, t2, htail, hname, p, hp, hid⟩
  · intro o name info h
    cases hlt : o.listTopics with
    | error e => simp only [describeConsumerGroup, hlt] at h; exact Except.noConfusion h
    | ok topics =>
      simp only [describeConsumerGroup, hlt] at h
      cases hco : o.committedOffsets (buildTPL topics) with
      | error e => simp only [hco] at h; exact Except.noConfusion h
      | ok committed =>
        simp only [hco] at h
        cases hot : o.offsetsForTimes (buildTPL topics) with
        | error e => simp only [hot] at h; exact Except.noConfusion h
        | ok lastOff =>
          simp only [hot] at h
          cases hmk : mkOffsets lastOff
              (committed.filter (fun r => r.offset != KOffset.invalid)) with
          | error e => simp only [hmk] at h; exact Except.noConfusion h
          | ok offsets =>
            simp only [hmk] at h
            cases hst : getConsumerGroupState o name with
            | error e => simp only [hst] at h; exact Except.noConfusion h
            | ok state =>
              simp only [hst] at h
              injection h with h2
              subst h2
              refine ⟨topics, committed, rfl, hco, ?_, ?_⟩
              · intro e he
                obtain ⟨r, hr, htop, hpart, hraw⟩ :=
                  mkOffsets_mem lastOff _ offsets hmk e he
                have hrmem := List.mem_filter.mp hr
                refine ⟨r, hrmem.1, ?_, htop, hpart, hraw⟩
                have := hrmem.2
                simpa [bne_iff_ne] using this
              · cases hgl : o.groupList (some name) with
                | error e =>
                  simp only [getConsumerGroupState, hgl] at hst
                  exact Except.noConfusion hst
                | ok groups =>
                  simp only [getConsumerGroupState, hgl] at hst
                  match groups, hst with
                  | [g], hst =>
                    injection hst with h3
                    exact ⟨g, rfl, h3.symm, rfl⟩

/-- C6 (witness): a one-topic, one-partition broker with one committed
offset and a singleton group response. -/
theorem c6_describe_consumer_group_witness :
    ((⟨"t", 0, KOffset.atEnd⟩ : TplEntry) ∈ buildTPL [⟨"t", [⟨0, 1, 1⟩]⟩] ↔
        (⟨"t", 0, KOffset.atEnd⟩ : TplEntry).offset = KOffset.atEnd ∧
          ∃ t ∈ [(⟨"t", [⟨0, 1, 1⟩]⟩ : Topic)],
            t.name = (⟨"t", 0, KOffset.atEnd⟩ : TplEntry).topic ∧
              ∃ p ∈ t.partitions, p.id = (⟨"t", 0, KOffset.atEnd⟩ : TplEntry).partition) ∧
      (∃ topics committed,
        (Except.ok [(⟨"t", [⟨0, 1, 1⟩]⟩ : Topic)] : Except String (List Topic)) = .ok topics ∧
          (AdminOracle.mk (.ok [⟨"t", [⟨0, 1, 1⟩]⟩])
              (fun _ => .ok [⟨"t", 0, .off 5⟩])
              (fun _ => .ok [⟨"t", 0, .off 9⟩])
              (fun _ => .ok [⟨"g", "Stable"⟩])).committedOffsets (buildTPL topics) =
            .ok committed ∧
          (∀ e ∈ (⟨"g", "Stable", [⟨"t", 0, 5, 9⟩]⟩ : ConsumerGroupInfo).offsets,
            ∃ r ∈ committed, r.offset ≠ KOffset.invalid ∧ r.topic = e.topic ∧
              r.partition = e.partition_id ∧ r.offset.toRaw = some e.offset) ∧
          ∃ g, (AdminOracle.mk (.ok [⟨"t", [⟨0, 1, 1⟩]⟩])
              (fun _ => .ok [⟨"t", 0, .off 5⟩])
              (fun _ => .ok [⟨"t", 0, .off 9⟩])
              (fun _ => .ok [⟨"g", "Stable"⟩])).groupList (some "g") = .ok [g] ∧
            (⟨"g", "Stable", [⟨"t", 0, 5, 9⟩]⟩ : ConsumerGroupInfo).state = g.state ∧
            (⟨"g", "Stable", [⟨"t", 0, 5, 9⟩]⟩ : ConsumerGroupInfo).name = "g") :=
  ⟨c6_describe_consumer_group.1 [⟨"t", [⟨0, 1, 1⟩]⟩] ⟨"t", 0, KOffset.atEnd⟩,
   c6_describe_consumer_group.2
      (AdminOracle.mk (.ok [⟨"t", [⟨0, 1, 1⟩]⟩])
        (fun _ => .ok [⟨"t", 0, .off 5⟩])
        (fun _ => .ok [⟨"t", 0, .off 9⟩])
        (fun _ => .ok [⟨"g", "Stable"⟩]))
      "g" ⟨"g", "Stable", [⟨"t", 0, 5, 9⟩]⟩ rfl⟩

/-- Inserting into the timestamp-sorted list adds one element. -/
theorem length_insertTsDesc (r : RecordRow) (l : List RecordRow) :
    (insertTsDesc r l).length = l.length + 1 := by
  induction l with
  | nil => rfl
  | cons x xs ih =>
    unfold insertTsDesc
    by_cases h : tsDescLe r.timestamp x.timestamp
    · rw [if_pos h]; rfl
    · rw [if_neg h]
      simp [ih]

/-- The `ORDER BY` sort preserves the number of rows. -/
theorem length_sortTsDesc (rows : List RecordRow) :
    (sortTsDesc rows).length = rows.length := by
  induction rows with
  | nil => rfl
  | cons r rest ih =>
    show (insertTsDesc r (sortTsDesc rest)).length = rest.length + 1
    rw [length_insertTsDesc, ih]

/-- C4: `get_records` pages the `ORDER BY timestamp DESC` view of the
topic table — the query it issues is exactly the quoted paged `SELECT`;
after creating a table and inserting one record, `get_records(c, t, 0,
1000)` returns exactly that record; and for every offset at least the
number of stored rows the result is empty. -/
theorem c4_get_records_paged :
    (parse_query (getRecordsQuery "c".toList "t".toList 2 5) =
      ("SELECT partition, offset, timestamp, key, payload FROM ".toList ++
        tableName "c".toList "t".toList ++
        " ORDER BY timestamp desc LIMIT 5 OFFSET 2".toList)) ∧
    (∀ (c t : List Char) (r : RecordRow),
        (createTopicTable [] c t).bind (fun st1 =>
          (insertRecord st1 c t r).bind (fun st2 =>
            getRecords st2 c t 0 1000)) =
          .ok [⟨t, r.partition, r.offset, r.timestamp, r.key, r.payload⟩]) ∧
    (∀ (store : Store) (c t : List Char) (rows : List RecordRow)
        (bigOffset limit : Int),
        List.lookup (tableName c t) store = some rows →
        (rows.length : Int) ≤ bigOffset →
        getRecords store c t bigOffset limit = .ok []) := by
  refine ⟨?_, ?_, ?_⟩
  · decide
  · intro c t r
    simp [createTopicTable, insertRecord, getRecords, updateTable, runPagedSelect,
      sortTsDesc, insertTsDesc, List.lookup, Except.bind]
  · intro store c t rows bigOffset limit hlook hge
    simp only [getRecords, hlook]
    have hdrop : (sortTsDesc rows).drop bigOffset.toNat = [] := by
      apply List.drop_eq_nil_of_le
      rw [length_sortTsDesc]
      omega
    simp [runPagedSelect, hdrop]

/-- C4 (witness). -/
theorem c4_get_records_paged_witness :
    (createTopicTable [] "c".toList "t".toList).bind (fun st1 =>
        (insertRecord st1 "c".toList "t".toList ⟨2, 0, some 3, none, none⟩).bind (fun st2 =>
          getRecords st2 "c".toList "t".toList 0 1000)) =
        .ok [⟨"t".toList, 2, 0, some 3, none, none⟩] ∧
      getRecords [(tableName "c".toList "t".toList, [⟨2, 0, some 3, none, none⟩])]
          "c".toList "t".toList 1 5 = .ok [] :=
  ⟨c4_get_records_paged.2.1 "c".toList "t".toList ⟨2, 0, some 3, none, none⟩,
   c4_get_records_paged.2.2 [(tableName "c".toList "t".toList, [⟨2, 0, some 3, none, none⟩])]
      "c".toList "t".toList [⟨2, 0, some 3, none, none⟩] 1 5 rfl (by decide)⟩

/-! ## Lemmas about the `str::replace` scanner (claim C3) -/

/-- The structural scanner on the empty string. -/
theorem replaceW_nil (pat rep : List Char) : replaceW [] pat rep = [] := by
  simp [replaceW]

/-- Scanner step when the pattern matches at the head. -/
theorem replaceW_cons_match (c : Char) (rest pat rep : List Char)
    (hm : pat.isPrefixOf (c :: rest)) (hpat : pat ≠ []) :
    replaceW (c :: rest) pat rep =
      rep ++ replaceW ((c :: rest).drop pat.length) pat rep := by
  simp only [replaceW]
  rw [dif_pos ⟨hm, hpat⟩]

/-- Scanner step when the pattern does not match at the head. -/
theorem replaceW_cons_nomatch (c : Char) (rest pat rep : List Char)
    (hm : ¬ pat.isPrefixOf (c :: rest)) :
    replaceW (c :: rest) pat rep = c :: replaceW rest pat rep := by
  simp only [replaceW]
  rw [dif_neg (fun hc => hm hc.1)]

/-- The fuel scanner agrees with the structural one whenever the fuel
covers the string length and the pattern is non-empty; in particular
`replaceL` (fuel = length) implements leftmost non-overlapping replace. -/
theorem replaceGo_eq_replaceW (pat rep : List Char) (hpat : pat ≠ []) :
    ∀ (fuel : Nat) (s : List Char), s.length ≤ fuel →
      replaceGo pat rep fuel s = replaceW s pat rep := by
  intro fuel
  induction fuel with
  | zero =>
    intro s hs
    have hnil : s = [] := List.length_eq_zero.mp (Nat.le_zero.mp hs)
    subst hnil
    simp [replaceGo, replaceW]
  | succ fuel ih =>
    intro s hs
    cases s with
    | nil => simp [replaceGo, replaceW]
    | cons c rest =>
      have hplen : 0 < pat.length := List.length_pos.mpr hpat
      by_cases hm : pat.isPrefixOf (c :: rest)
      · have hgo : replaceGo pat rep (fuel + 1) (c :: rest) =
            rep ++ replaceGo pat rep fuel ((c :: rest).drop pat.length) := by
          simp only [replaceGo]
          rw [if_pos hm]
        rw [hgo, replaceW_cons_match c rest pat rep hm hpat]
        congr 1
        apply ih
        simp only [List.length_drop, List.length_cons]
        simp only [List.length_cons] at hs
        omega
      · have hgo : replaceGo pat rep (fuel + 1) (c :: rest) =
            c :: replaceGo pat rep fuel rest := by
          simp only [replaceGo]
          rw [if_neg hm]
        rw [hgo, replaceW_cons_nomatch c rest pat rep hm]
        congr 1
        apply ih
        simp only [List.length_cons] at hs
        omega

/-- `replaceL` equals the structural scanner for non-empty patterns. -/
theorem replaceL_eq_replaceW (s pat rep : List Char) (hpat : pat ≠ []) :
    replaceL s pat rep = replaceW s pat rep :=
  replaceGo_eq_replaceW pat rep hpat s.length s (le_refl _)

/-- A list is a prefix of itself followed by anything. -/
theorem isPrefixOf_append_self (l b : List Char) : l.isPrefixOf (l ++ b) := by
  induction l with
  | nil => simp [List.isPrefixOf]
  | cons x xs ih => simp [List.isPrefixOf, ih]

/-- Scanning across a segment that never contains the first pattern
character copies the segment unchanged. -/
theorem replaceW_append_no_head (a b : List Char) (first : Char) (p2 rep : List Char)
    (hnf : ∀ ch ∈ a, ch ≠ first) :
    replaceW (a ++ b) (first :: p2) rep = a ++ replaceW b (first :: p2) rep := by
  induction a with
  | nil => simp
  | cons c a2 ih =>
    have hc : c ≠ first := hnf c (List.mem_cons_self c a2)
    have hm : ¬ (first :: p2).isPrefixOf (c :: (a2 ++ b)) := by
      intro hpre
      simp only [List.isPrefixOf, Bool.and_eq_true, beq_iff_eq] at hpre
      exact hc hpre.1.symm
    rw [List.cons_append, replaceW_cons_nomatch c (a2 ++ b) (first :: p2) rep hm]
    rw [ih (fun ch hch => hnf ch (List.mem_cons_of_mem c hch))]
    rfl

/-- A string without the first pattern character is left unchanged. -/
theorem replaceW_self_no_head (a : List Char) (first : Char) (p2 rep : List Char)
    (hnf : ∀ ch ∈ a, ch ≠ first) :
    replaceW a (first :: p2) rep = a := by
  have h := replaceW_append_no_head a [] first p2 rep hnf
  simpa [replaceW_nil] using h

/-- The pattern at the head of the string is replaced. -/
theorem replaceW_head_match (pat b rep : List Char) (hpat : pat ≠ []) :
    replaceW (pat ++ b) pat rep = rep ++ replaceW b pat rep := by
  rcases hp : pat with _ | ⟨p, ps⟩
  · exact absurd hp hpat
  · have hm : (p :: ps).isPrefixOf (p :: (ps ++ b)) := by
      rw [← List.cons_append]
      exact isPrefixOf_append_self (p :: ps) b
    rw [List.cons_append, replaceW_cons_match p (ps ++ b) (p :: ps) rep hm (by simp)]
    congr 1
    rw [← List.cons_append, List.drop_left]

/-! ## Decimal renderings contain only sign and digit characters -/

/-- Every position below 10 of `digitChars` holds a digit character. -/
theorem digit_getD_mem : ∀ k, k < 10 → digitChars.getD k (Char.ofNat 48) ∈ digitChars := by
  decide

/-- Characters produced by the digit loop are digits or come from the
accumulator. -/
theorem mem_natToCharsGo (fuel : Nat) : ∀ (n : Nat) (acc : List Char) (c : Char),
    c ∈ natToCharsGo fuel n acc → c ∈ digitChars ∨ c ∈ acc := by
  induction fuel with
  | zero => intro n acc c hc; exact Or.inr hc
  | succ fuel ih =>
    intro n acc c hc
    simp only [natToCharsGo] at hc
    by_cases h10 : n < 10
    · rw [if_pos h10] at hc
      rcases List.mem_cons.mp hc with h | h
      · exact Or.inl (by rw [h]; exact digit_getD_mem (n % 10) (Nat.mod_lt n (by omega)))
      · exact Or.inr h
    · rw [if_neg h10] at hc
      rcases ih (n / 10) _ c hc with h | h
      · exact Or.inl h
      · rcases List.mem_cons.mp h with h2 | h2
        · exact Or.inl (by rw [h2]; exact digit_getD_mem (n % 10) (Nat.mod_lt n (by omega)))
        · exact Or.inr h2

/-- Characters of an `i64` decimal rendering: a minus sign or a digit. -/
theorem mem_intToChars (i : Int) (c : Char) (hc : c ∈ intToChars i) :
    c ∈ ('-' :: digitChars) := by
  unfold intToChars at hc
  by_cases hneg : i < 0
  · rw [if_pos hneg] at hc
    rcases List.mem_cons.mp hc with h | h
    · rw [h]; exact List.mem_cons_self _ _
    · unfold natToChars at h
      rcases mem_natToCharsGo _ _ _ c h with h2 | h2
      · exact List.mem_cons_of_mem _ h2
      · cases h2
  · rw [if_neg hneg] at hc
    unfold natToChars at hc
    rcases mem_natToCharsGo _ _ _ c hc with h2 | h2
    · exact List.mem_cons_of_mem _ h2
    · cases h2

/-- Sign and digit characters are not braces and not whitespace. -/
theorem signDigit_props : ∀ c ∈ ('-' :: digitChars),
    c ≠ Char.ofNat 123 ∧ isWsChar c = false := by
  decide

/-- An `i64` rendering never contains the placeholder brace. -/
theorem intToChars_no_brace (i : Int) : ∀ c ∈ intToChars i, c ≠ Char.ofNat 123 :=
  fun c hc => (signDigit_props c (mem_intToChars i c hc)).1

/-! ## `str::trim` on strings with non-whitespace ends -/

/-- `trim` is the identity when neither end is whitespace. -/
theorem trimL_eq_self (s : List Char)
    (hhead : ∀ c, s.head? = some c → isWsChar c = false)
    (hlast : ∀ c, s.getLast? = some c → isWsChar c = false) : trimL s = s := by
  unfold trimL
  have h1 : s.dropWhile isWsChar = s := by
    cases s with
    | nil => rfl
    | cons c0 rest =>
      rw [List.dropWhile_cons, hhead c0 rfl]
      simp
  rw [h1]
  have h2 : s.reverse.dropWhile isWsChar = s.reverse := by
    cases hr : s.reverse with
    | nil => rfl
    | cons cl rrest =>
      have hg : s.getLast? = some cl := by
        rw [← List.head?_reverse, hr]
        rfl
      rw [List.dropWhile_cons, hlast cl hg]
      simp
  rw [h2, List.reverse_reverse]

/-- Replacing the limit placeholder in the topic-substituted template
splices the limit rendering and touches nothing else. -/
theorem c3_step_limit (limit : Int) :
    replaceL (c3A1 ++ (limitPlaceholder ++ (c3Off ++ (offsetPlaceholder ++ [';']))))
        limitPlaceholder (intToChars limit) =
      c3A1 ++ (intToChars limit ++ (c3Off ++ (offsetPlaceholder ++ [';']))) := by
  rw [replaceL_eq_replaceW _ _ _ (by decide)]
  have hps : limitPlaceholder = Char.ofNat 123 :: ":limit\x7d".toList := by decide
  rw [hps]
  rw [replaceW_append_no_head c3A1
    ((Char.ofNat 123 :: ":limit\x7d".toList) ++ (c3Off ++ (offsetPlaceholder ++ [';'])))
    (Char.ofNat 123) (":limit\x7d".toList) (intToChars limit) (by decide)]
  congr 1
  rw [replaceW_head_match (Char.ofNat 123 :: ":limit\x7d".toList)
    (c3Off ++ (offsetPlaceholder ++ [';'])) (intToChars limit) (by simp)]
  congr 1
  rw [replaceW_append_no_head c3Off (offsetPlaceholder ++ [';'])
    (Char.ofNat 123) (":limit\x7d".toList) (intToChars limit) (by decide)]
  congr 1
  have hoff : offsetPlaceholder ++ [';'] = Char.ofNat 123 :: ":offset\x7d;".toList := by
    decide
  rw [hoff]
  rw [replaceW_cons_nomatch (Char.ofNat 123) (":offset\x7d;".toList)
    (Char.ofNat 123 :: ":limit\x7d".toList) (intToChars limit) (by decide)]
  rw [replaceW_self_no_head (":offset\x7d;".toList) (Char.ofNat 123)
    (":limit\x7d".toList) (intToChars limit) (by decide)]

/-- Replacing the offset placeholder after the limit pass splices the
offset rendering, scanning over the limit digits unchanged. -/
theorem c3_step_offset (limit offset : Int) :
    replaceL (c3A1 ++ (intToChars limit ++ (c3Off ++ (offsetPlaceholder ++ [';']))))
        offsetPlaceholder (intToChars offset) =
      c3A1 ++ (intToChars limit ++ (c3Off ++ (intToChars offset ++ [';']))) := by
  rw [replaceL_eq_replaceW _ _ _ (by decide)]
  have hps : offsetPlaceholder = Char.ofNat 123 :: ":offset\x7d".toList := by decide
  rw [hps]
  rw [replaceW_append_no_head c3A1
    (intToChars limit ++ (c3Off ++ ((Char.ofNat 123 :: ":offset\x7d".toList) ++ [';'])))
    (Char.ofNat 123) (":offset\x7d".toList) (intToChars offset) (by decide)]
  congr 1
  rw [replaceW_append_no_head (intToChars limit)
    (c3Off ++ ((Char.ofNat 123 :: ":offset\x7d".toList) ++ [';']))
    (Char.ofNat 123) (":offset\x7d".toList) (intToChars offset)
    (intToChars_no_brace limit)]
  congr 1
  rw [replaceW_append_no_head c3Off ((Char.ofNat 123 :: ":offset\x7d".toList) ++ [';'])
    (Char.ofNat 123) (":offset\x7d".toList) (intToChars offset) (by decide)]
  congr 1
  rw [replaceW_head_match (Char.ofNat 123 :: ":offset\x7d".toList) [';']
    (intToChars offset) (by simp)]
  congr 1
  rw [replaceW_self_no_head [';'] (Char.ofNat 123) (":offset\x7d".toList)
    (intToChars offset) (by decide)]

/-- C3: `parse_query` substitutes the quoted table name for `{:topic}` and
the decimal renderings of limit and offset for `{:limit}` and `{:offset}`
in the template, then strips the one trailing semicolon; at limit 5 and
offset 2 the result is exactly the expected `SELECT`. -/
theorem c3_parse_query_substitution :
    (∀ limit offset : Int,
        parse_query ⟨"c".toList, "t".toList, offset, limit, c3Template⟩ =
          "SELECT * FROM ".toList ++ tableName "c".toList "t".toList ++
            " LIMIT ".toList ++ intToChars limit ++
            " OFFSET ".toList ++ intToChars offset) ∧
    parse_query ⟨"c".toList, "t".toList, 2, 5, c3Template⟩ =
      "SELECT * FROM ".toList ++ tableName "c".toList "t".toList ++
        " LIMIT 5 OFFSET 2".toList := by
  constructor
  · intro limit offset
    show stripTrailingSemicolon (trimL
      (replaceL
        (replaceL
          (replaceL c3Template topicPlaceholder (tableName "c".toList "t".toList))
          limitPlaceholder (intToChars limit))
        offsetPlaceholder (intToChars offset))) = _
    have h1 : replaceL c3Template topicPlaceholder (tableName "c".toList "t".toList) =
        c3A1 ++ (limitPlaceholder ++ (c3Off ++ (offsetPlaceholder ++ [';']))) := by
      decide
    rw [h1, c3_step_limit limit, c3_step_offset limit offset]
    have hassoc : c3A1 ++ (intToChars limit ++ (c3Off ++ (intToChars offset ++ [';']))) =
        (c3A1 ++ (intToChars limit ++ (c3Off ++ intToChars offset))) ++ [';'] := by
      simp [List.append_assoc]
    rw [hassoc]
    have hQne : c3A1 ++ (intToChars limit ++ (c3Off ++ intToChars offset)) ≠ [] := by
      intro hq
      rcases List.append_eq_nil.mp hq with ⟨ha, _⟩
      exact absurd ha (by decide)
    have htrim : trimL ((c3A1 ++ (intToChars limit ++ (c3Off ++ intToChars offset))) ++ [';']) =
        (c3A1 ++ (intToChars limit ++ (c3Off ++ intToChars offset))) ++ [';'] := by
      apply trimL_eq_self
      · intro c hc
        rw [List.head?_append_of_ne_nil _ hQne] at hc
        rw [List.head?_append_of_ne_nil c3A1 (by decide)] at hc
        have hS : c3A1.head? = some 'S' := by decide
        rw [hS] at hc
        injection hc with hc2
        rw [← hc2]
        decide
      · intro c hc
        simp only [List.getLast?_concat] at hc
        injection hc with hc2
        rw [← hc2]
        decide
    rw [htrim]
    have hstrip : stripTrailingSemicolon
        ((c3A1 ++ (intToChars limit ++ (c3Off ++ intToChars offset))) ++ [';']) =
        c3A1 ++ (intToChars limit ++ (c3Off ++ intToChars offset)) := by
      unfold stripTrailingSemicolon
      rw [if_pos (by simp)]
      simp
    rw [hstrip]
    simp [c3A1, c3Off, List.append_assoc]
  · decide

/-- C3 (witness): the closed limit 5, offset 2 instance of the universal
part agrees with the evaluated renderings. -/
theorem c3_parse_query_substitution_witness :
    parse_query ⟨"c".toList, "t".toList, 2, 5, c3Template⟩ =
      "SELECT * FROM ".toList ++ tableName "c".toList "t".toList ++
        " LIMIT ".toList ++ intToChars 5 ++ " OFFSET ".toList ++ intToChars 2 :=
  c3_parse_query_substitution.1 5 2

end Insulator
